import Mathlib

/-!
# Verification of the constech-worker workflow engine

A shallow embedding, in Lean 4, of the parts of the `constech-worker`
repository that the specification's claims talk about:

* `ClaudeMdParser.removeWorkerSections` and `readClaudeInstructions`
  (src/core/claude-md-parser.ts) — the instruction filter built from two
  JavaScript regex replacements and a trim;
* the title/description extraction of `WorkflowExecutor.createGitHubIssue`
  (src/core/workflow-executor.ts, lines 186–198);
* the control flow of `WorkflowExecutor.execute` (lines 73–179) together
  with the cleanup registry of `CleanupManager`
  (src/utils/cleanup-manager.ts);
* the request validation of `dispatchCommand` (src/commands/dispatch.ts);
* the bootstrap script produced by
  `WorkflowExecutor.generateWorkflowScript` (lines 638–702), embedded as
  an ordered list of script steps with a small shell semantics;
* the error taxonomy of `GitHubClient` (src/core/github-client.ts).

Strings are modelled as `List Char`; the JavaScript regexes that the
source uses are implemented directly (the patterns involved are
deterministic, see the comments at each definition), with fuel-based
recursion so that every definition evaluates by `decide` on concrete
input.
-/

namespace ConstechWorker

/-! ## JavaScript string primitives -/

/-- The JavaScript `\s` character class (also the set trimmed by
`String.prototype.trim`): ASCII whitespace, NBSP, the Unicode space
separators, the line separators and the BOM. -/
def isJsWs (c : Char) : Bool :=
  c = ' ' || c = '\t' || c = '\n' || c = '\x0b' || c = '\x0c' || c = '\r' ||
  c.toNat = 0xA0 || c.toNat = 0x1680 ||
  (0x2000 ≤ c.toNat && c.toNat ≤ 0x200A) ||
  c.toNat = 0x2028 || c.toNat = 0x2029 || c.toNat = 0x202F ||
  c.toNat = 0x205F || c.toNat = 0x3000 || c.toNat = 0xFEFF

/-- `String.prototype.trimStart`. -/
def trimStart (l : List Char) : List Char := l.dropWhile isJsWs

/-- `String.prototype.trimEnd`. -/
def trimEnd (l : List Char) : List Char := (l.reverse.dropWhile isJsWs).reverse

/-- `String.prototype.trim`: drop `\s` characters from both ends. -/
def jsTrim (l : List Char) : List Char := trimEnd (trimStart l)

/-- Consume an exact literal at the head of the input, returning the
remainder (the building block for the literal parts of the source's
regexes). -/
def eatLit : List Char → List Char → Option (List Char)
  | [], s => some s
  | _ :: _, [] => none
  | c :: cs, d :: ds => if c = d then eatLit cs ds else none

/-- One match, anchored at the head of `s`, of the pattern
`<!--\s*WORD\s*-->` (the shape of both marker patterns in
`removeWorkerSections`).  Greedy `\s*` followed by a literal whose first
character is not whitespace (`C` resp. `-`) is deterministic: the
whitespace run is exactly the maximal one, so `dropWhile isJsWs` is a
faithful implementation.  Returns the remainder after the match. -/
def matchMarker (word : List Char) (s : List Char) : Option (List Char) :=
  match eatLit ['<', '!', '-', '-'] s with
  | none => none
  | some s1 =>
    match eatLit word (s1.dropWhile isJsWs) with
    | none => none
    | some s3 => eatLit ['-', '-', '>'] (s3.dropWhile isJsWs)

def startWord : List Char := "CONSTECH-WORKER-START".data

def endWord : List Char := "CONSTECH-WORKER-END".data

/-- Anchored match of `<!--\s*CONSTECH-WORKER-START\s*-->`. -/
def matchStart (s : List Char) : Option (List Char) := matchMarker startWord s

/-- Anchored match of `<!--\s*CONSTECH-WORKER-END\s*-->`. -/
def matchEnd (s : List Char) : Option (List Char) := matchMarker endWord s

/-- The lazy `[\s\S]*?` up to the END marker: scan left to right for the
earliest position where the END marker pattern matches and return the
remainder after that match. -/
def findEnd : List Char → Option (List Char)
  | [] => none
  | c :: t =>
    match matchEnd (c :: t) with
    | some r => some r
    | none => findEnd t

/-- One pass of the global replacement
`content.replace(/<!--\s*CONSTECH-WORKER-START\s*-->[\s\S]*?<!--\s*CONSTECH-WORKER-END\s*-->/g, '')`
from `removeWorkerSections`: scan left to right; at each position try the
full pattern (START marker, then the earliest END marker after it); on a
match drop the whole span and continue scanning after it, otherwise keep
the character and advance by one.  `fuel` only forces termination; it is
always run with `fuel ≥ length`. -/
def stripGo : Nat → List Char → List Char
  | 0, s => s
  | _ + 1, [] => []
  | fuel + 1, c :: t =>
    match matchStart (c :: t) with
    | some rem =>
      match findEnd rem with
      | some rem2 => stripGo fuel rem2
      | none => c :: stripGo fuel t
    | none => c :: stripGo fuel t

def stripSpans (s : List Char) : List Char := stripGo s.length s

/-- Number of newline characters in a list. -/
def nlCount (l : List Char) : Nat := l.count '\n'

/-- The maximal `\s` run at the head of `t`. -/
def wsRun (t : List Char) : List Char := t.takeWhile isJsWs

/-- The suffix of `l` after its last newline (all of `l` when it has
none). -/
def afterLastNl (l : List Char) : List Char :=
  (l.reverse.takeWhile (fun c => decide (c ≠ '\n'))).reverse

/-- The global replacement `filtered.replace(/\n\s*\n\s*\n/g, '\n\n')`
from `removeWorkerSections`.  At a position holding `'\n'`, the pattern
`\n\s*\n\s*\n` (both `\s*` greedy, with backtracking) matches exactly
when the maximal whitespace run that follows contains at least two more
newlines, and the match then extends through the last newline of that
run; it is replaced by two newlines and scanning resumes after the
match.  `fuel` only forces termination; it is always run with
`fuel ≥ length`. -/
def collapseGo : Nat → List Char → List Char
  | 0, s => s
  | _ + 1, [] => []
  | fuel + 1, c :: t =>
    if c = '\n' ∧ 2 ≤ nlCount (wsRun t) then
      '\n' :: '\n' :: collapseGo fuel (afterLastNl (wsRun t) ++ t.dropWhile isJsWs)
    else c :: collapseGo fuel t

def collapseNewlines (s : List Char) : List Char := collapseGo s.length s

/-- `ClaudeMdParser.removeWorkerSections` (claude-md-parser.ts, lines
295–304): strip the marker-delimited spans, collapse runs of three or
more newlines (with interleaved whitespace) to two, and trim. -/
def removeWorkerSections (content : List Char) : List Char :=
  jsTrim (collapseNewlines (stripSpans content))

/-- Whether the START marker pattern matches at some position of `s`. -/
def hasStartMatch : List Char → Bool
  | [] => false
  | c :: t => (matchStart (c :: t)).isSome || hasStartMatch t

/-- Decidable form of "the collapse regex `\n\s*\n\s*\n` has no match
anywhere in `s`" (the branch condition of `collapseGo` fails at every
position). -/
def noTriple : List Char → Bool
  | [] => true
  | c :: t =>
    if c = '\n' ∧ 2 ≤ nlCount (wsRun t) then false else noTriple t

/-! ## Issue title/description extraction -/

/-- Case-insensitive match of an ASCII pattern at the head of `s`: the
anchored `/^(we need to |please |can you )/i` of the source applied to
ASCII phrases is character-by-character lower-case comparison. -/
def startsWithCI : List Char → List Char → Bool
  | [], _ => true
  | _ :: _, [] => false
  | p :: ps, c :: cs => (p.toLower = c.toLower) && startsWithCI ps cs

/-- `prompt.replace(/^(we need to |please |can you )/i, '')`
(workflow-executor.ts line 195, likewise line 113): the regex is
anchored and non-global, so at most one leading phrase is removed;
alternatives are tried left to right (they are mutually exclusive
anyway).  The phrase lengths are 11, 7 and 8. -/
def stripFiller (s : List Char) : List Char :=
  if startsWithCI "we need to ".data s then s.drop 11
  else if startsWithCI "please ".data s then s.drop 7
  else if startsWithCI "can you ".data s then s.drop 8
  else s

/-- JavaScript `prompt.indexOf('.')` for a prompt known to contain a
period: the length of the maximal period-free head. -/
def dotIndex (s : List Char) : Nat :=
  (s.takeWhile (fun c => decide (c ≠ '.'))).length

/-- The title/description extraction of
`WorkflowExecutor.createGitHubIssue` (workflow-executor.ts lines
189–198); lines 110–115 of `execute` recompute the same title.  With a
period: `prompt.split('.')[0]` is the maximal period-free head, and
`prompt.substring(prompt.indexOf('.') + 1)` drops everything through the
first period, both then trimmed.  Without: strip one filler phrase, keep
at most the first 50 characters as the title, keep the whole prompt as
the description. -/
def issueTitleDescription (prompt : List Char) : List Char × List Char :=
  if prompt.contains '.' then
    (jsTrim (prompt.takeWhile (fun c => decide (c ≠ '.'))),
     jsTrim (prompt.drop (dotIndex prompt + 1)))
  else
    let cleanPrompt := stripFiller prompt
    ((if 50 < cleanPrompt.length then cleanPrompt.take 50 else cleanPrompt), prompt)

/-! ## readClaudeInstructions -/

structure ClaudeInstructions where
  full : List Char
  filtered : List Char
  hasWorkerSections : Bool
deriving DecidableEq

/-- `ClaudeMdParser.readClaudeInstructions` (claude-md-parser.ts lines
257–290).  The input is the result of reading `CLAUDE.md`: `none` for
ENOENT (any other read error is re-thrown and not modelled).  The
`hasWorkerSections` flag is literally
`fullContent !== filteredContent`. -/
def readClaudeInstructions : Option (List Char) → ClaudeInstructions
  | some content =>
    let filteredContent := removeWorkerSections content
    { full := content, filtered := filteredContent,
      hasWorkerSections := decide (content ≠ filteredContent) }
  | none => { full := [], filtered := [], hasWorkerSections := false }

/-! ## CleanupManager -/

/-- The cleanup manager's state: the registered cleanup closures
(identified by tokens) in registration order, and the `isShuttingDown`
flag. -/
structure CleanupManagerState where
  cleanupFunctions : List Nat
  isShuttingDown : Bool
deriving DecidableEq

/-- `CleanupManager.registerCleanup` (cleanup-manager.ts line 18):
push onto the list. -/
def registerCleanup (s : CleanupManagerState) (f : Nat) : CleanupManagerState :=
  { s with cleanupFunctions := s.cleanupFunctions ++ [f] }

/-- `CleanupManager.unregisterCleanup` (cleanup-manager.ts lines 22–27):
`indexOf` + `splice(index, 1)`, i.e. remove the first occurrence if
present. -/
def unregisterCleanup (s : CleanupManagerState) (f : Nat) : CleanupManagerState :=
  { s with cleanupFunctions := s.cleanupFunctions.erase f }

inductive SignalAction where
  | cleanupAndExit (ran : List Nat) (code : Nat)
  | forceExit (code : Nat)
deriving DecidableEq

/-- One delivery of SIGINT/SIGTERM/SIGHUP to the handler installed by
`registerSignalHandlers` (cleanup-manager.ts lines 34–53).  If
`isShuttingDown` is already set the handler force-exits with code 1
without touching the cleanup list; otherwise it sets the flag (before
any await, so any signal arriving during the in-flight cleanup sees it),
runs every registered cleanup function once — `executeCleanup` catches
each function's failure and uses `Promise.allSettled`, so the handler's
`try` always succeeds — and exits 0. -/
def signalStep (s : CleanupManagerState) : SignalAction × CleanupManagerState :=
  if s.isShuttingDown then (.forceExit 1, s)
  else (.cleanupAndExit s.cleanupFunctions 0, { s with isShuttingDown := true })

/-! ## WorkflowExecutor.execute -/

structure ExecutionOptions where
  issueNumber : Option Nat
  prompt : Option (List Char)
  createIssue : Bool

/-- The parts of `config.github` that `execute`/`setIssueStatus`
branch on. -/
structure GithubConfig where
  hasProjectId : Bool
  hasStatusFieldId : Bool
  hasInProgressOption : Bool

/-- Oracle for the awaited collaborator calls inside one run of
`execute`.  `createIssueRes` is the overall outcome of
`createGitHubIssue` (its internal board-sync calls never throw, see the
GitHubClient model below, so its failures are exactly the primary
creation failures).  `execRes` is the outcome of `executeWorkflow`, the
EXECUTING phase. -/
structure ExecEnv where
  getIssueRes : Except String (List Char)
  createIssueRes : Except String Nat
  updateStatusRes : Except String Unit
  prepareRes : Except String String
  execRes : Except String Unit

inductive Ev where
  | getIssue | createIssueCall | setStatusCall | prepareContainer
  | registerCleanupEv | unregisterCleanupEv | execWorkflow
  | cleanupContainer | finalize | displaySummary
deriving DecidableEq

/-- The `workflowResults` record of `execute`, with the timestamps
abstracted to "the end time has been written".  `finalize` in the trace
marks the single program point (success branch or catch branch) that
writes `endTime` and the terminal outcome. -/
structure WorkflowResults where
  issueNumber : Option Nat
  issueTitle : Option (List Char)
  issueCreated : Bool
  containerId : Option String
  success : Bool
  endTimeSet : Bool
  error : Option String
deriving DecidableEq

structure ExecOut where
  result : Except String Unit
  results : WorkflowResults
  registry : List Nat
  trace : List Ev

/-- `WorkflowExecutor.setIssueStatus` (workflow-executor.ts lines
254–283): missing project/status-field configuration or a missing
status option is a warn-and-return; a failure of the actual update call
is logged and **re-thrown**. -/
def setIssueStatusModel (cfg : GithubConfig) (env : ExecEnv) : Except String Unit :=
  if !(cfg.hasProjectId && cfg.hasStatusFieldId) then .ok ()
  else if !cfg.hasInProgressOption then .ok ()
  else env.updateStatusRes

/-- The tail of `execute` from `prepareContainer` (line 127) on: create
the container, register the cleanup closure with the cleanup manager,
then the `try`/`catch`/`finally` around the EXECUTING phase.  Both the
success branch and the catch branch finalize `workflowResults` and
display the summary; the `finally` unregisters the cleanup closure and
then runs `cleanupContainer` (which catches all its own errors and never
throws).  A `prepareContainer` failure propagates before any
registration. -/
def executeFromPrepare (env : ExecEnv) (r : WorkflowResults) (reg0 : List Nat)
    (tok : Nat) (t : List Ev) : ExecOut :=
  match env.prepareRes with
  | .error e => ⟨.error e, r, reg0, t ++ [.prepareContainer]⟩
  | .ok cid =>
    let r2 := { r with containerId := some cid }
    let reg1 := reg0 ++ [tok]
    let t2 := t ++ [.prepareContainer, .registerCleanupEv]
    match env.execRes with
    | .ok _ =>
      ⟨.ok (), { r2 with success := true, endTimeSet := true },
        reg1.erase tok,
        t2 ++ [.execWorkflow, .finalize, .displaySummary, .unregisterCleanupEv,
               .cleanupContainer]⟩
    | .error e =>
      ⟨.error e, { r2 with success := false, endTimeSet := true, error := some e },
        reg1.erase tok,
        t2 ++ [.execWorkflow, .finalize, .displaySummary, .unregisterCleanupEv,
               .cleanupContainer]⟩

/-- The status-setting step of `execute` (lines 118–122): performed when
an issue number is present and a project id is configured; its failure
propagates (setIssueStatus re-throws). -/
def executeFromStatus (cfg : GithubConfig) (env : ExecEnv) (issueNumber : Option Nat)
    (r : WorkflowResults) (reg0 : List Nat) (tok : Nat) (t : List Ev) : ExecOut :=
  if issueNumber.isSome && cfg.hasProjectId then
    match setIssueStatusModel cfg env with
    | .error e => ⟨.error e, r, reg0, t ++ [.setStatusCall]⟩
    | .ok _ => executeFromPrepare env r reg0 tok (t ++ [.setStatusCall])
  else executeFromPrepare env r reg0 tok t

/-- The initialisation of `workflowResults` at the top of `execute`
(lines 75–81). -/
def initialResults (opts : ExecutionOptions) : WorkflowResults :=
  { issueNumber := opts.issueNumber, issueTitle := none, issueCreated := false,
    containerId := none, success := false, endTimeSet := false, error := none }

/-- Lines 91–98 of `execute`: when an existing issue number is given and
no issue is being created, fetch the title best-effort (a fetch failure
is caught and only debug-logged). -/
def fetchTitleResults (env : ExecEnv) (opts : ExecutionOptions) : WorkflowResults :=
  if opts.issueNumber.isSome && !opts.createIssue then
    match env.getIssueRes with
    | .ok ti => { (initialResults opts) with issueTitle := some ti }
    | .error _ => initialResults opts
  else initialResults opts

/-- The trace of the title-fetch step. -/
def fetchTitleTrace (opts : ExecutionOptions) : List Ev :=
  if opts.issueNumber.isSome && !opts.createIssue then [.getIssue] else []

/-- `WorkflowExecutor.execute` (workflow-executor.ts lines 73–179) as a
function of the collaborator oracle.  `reg0` is the cleanup manager's
registry before the run and `tok` the token standing for this run's
cleanup closure.  Issue numbers are positive, so JS truthiness of
`issueNumber` is `isSome`; the truthiness of `execution.prompt` on line
100 makes an empty prompt skip issue creation.  Lines 106–115: on
creation the results record the new number, the created flag and the
title recomputed with the same split logic as `createGitHubIssue`. -/
def modelExecute (cfg : GithubConfig) (env : ExecEnv) (opts : ExecutionOptions)
    (reg0 : List Nat) (tok : Nat) : ExecOut :=
  match opts.createIssue, opts.prompt with
  | true, some p =>
    if p.isEmpty then
      executeFromStatus cfg env opts.issueNumber (fetchTitleResults env opts)
        reg0 tok (fetchTitleTrace opts)
    else
      match env.createIssueRes with
      | .error e =>
        ⟨.error e, fetchTitleResults env opts, reg0,
          fetchTitleTrace opts ++ [.createIssueCall]⟩
      | .ok n =>
        executeFromStatus cfg env (some n)
          { (fetchTitleResults env opts) with
              issueNumber := some n
              issueCreated := true
              issueTitle := some (issueTitleDescription p).1 }
          reg0 tok (fetchTitleTrace opts ++ [.createIssueCall])
  | true, none =>
    executeFromStatus cfg env opts.issueNumber (fetchTitleResults env opts)
      reg0 tok (fetchTitleTrace opts)
  | false, _ =>
    executeFromStatus cfg env opts.issueNumber (fetchTitleResults env opts)
      reg0 tok (fetchTitleTrace opts)

/-! ## dispatchCommand -/

/-- JS truthiness of an optional string option: present and non-empty. -/
def truthyStr : Option String → Bool
  | none => false
  | some s => decide (s ≠ "")

structure DispatchOptions where
  issue : Option String
  prompt : Option String
  createIssue : Bool
  force : Bool
  dryRun : Bool

structure DispatchEnv where
  configLoad : Except String Unit
  configValid : Bool
  botToken : Option String
  executeRes : Except String Unit

inductive DispatchEv where
  | banner | loadConfig | validateConfig | dryRunShow | runWorkflow
deriving DecidableEq

inductive DispatchOutcome where
  | exited (code : Nat)
  | returned
deriving DecidableEq

/-- `dispatchCommand` (dispatch.ts lines 18–119).  `runWorkflow` is the
only event that performs network or container operations (the
`WorkflowExecutor.execute` call); banner, config load and validation are
local.  `exitGracefully(1, …)` runs the cleanup registry — empty at
these points — and exits with the given code, never returning. -/
def dispatchCommand (opts : DispatchOptions) (env : DispatchEnv) :
    DispatchOutcome × List DispatchEv :=
  if !truthyStr opts.issue && !truthyStr opts.prompt then (.exited 1, [])
  else if truthyStr opts.issue && opts.createIssue then (.exited 1, [])
  else
    let t0 := [DispatchEv.banner, DispatchEv.loadConfig]
    match env.configLoad with
    | .error _ => (.exited 1, t0)
    | .ok _ =>
      let t1 := t0 ++ [DispatchEv.validateConfig]
      if !env.configValid && !opts.force then (.exited 1, t1)
      else if opts.dryRun then (.returned, t1 ++ [DispatchEv.dryRunShow])
      else
        match env.botToken with
        | none => (.exited 1, t1)
        | some tk =>
          if tk = "" then (.exited 1, t1)
          else
            match env.executeRes with
            | .ok _ => (.returned, t1 ++ [DispatchEv.runWorkflow])
            | .error _ => (.exited 1, t1 ++ [DispatchEv.runWorkflow])

/-! ## The generated bootstrap script -/

inductive ScriptStep where
  | verifyCredFile
  | mkWorkdir
  | gitInit
  | gitConfigUser
  | gitConfigCred
  | addRemote
  | fetchBranch (branch : String)
  | checkoutBranch (branch : String)
  | branchCheck (branch : String)
  | porcelainCheck
  | mcpInit (cmd : String)
  | exportEnvVars
  | writePromptFile
  | invokeClaude
deriving DecidableEq

structure ScriptConfig where
  workingBranch : String
  mcpInitCommands : List String

/-- `WorkflowExecutor.generateWorkflowScript` (workflow-executor.ts
lines 638–702), as the ordered list of commands the generated bash
script performs: verify the Claude credential file (`exit 1` when
absent), create the isolated workspace, `git init` + author config,
credential-store config, add the GitHub remote, `git fetch`/`git
checkout` of the working branch (each `|| exit 1`), the
`CURRENT_BRANCH` check and the `git status --porcelain` check (each
`exit 1` on violation), the MCP init commands, the environment exports,
writing the prompt file, and finally the `claude` invocation. -/
def generateWorkflowScript (cfg : ScriptConfig) : List ScriptStep :=
  [.verifyCredFile, .mkWorkdir, .gitInit, .gitConfigUser, .gitConfigCred, .addRemote,
   .fetchBranch cfg.workingBranch, .checkoutBranch cfg.workingBranch,
   .branchCheck cfg.workingBranch, .porcelainCheck]
  ++ cfg.mcpInitCommands.map ScriptStep.mcpInit
  ++ [.exportEnvVars, .writePromptFile, .invokeClaude]

/-- Shell oracle: the exit status of each command in the generated
script and the values the script's command substitutions observe. -/
structure ShellEnv where
  credFileExists : Bool
  mkdirStatus : Nat
  gitInitStatus : Nat
  gitConfigStatus : Nat
  credStatus : Nat
  remoteStatus : Nat
  fetchStatus : Nat
  checkoutStatus : Nat
  currentBranch : String
  porcelain : String
  mcpStatus : String → Nat
  exportStatus : Nat
  promptWriteStatus : Nat
  claudeStatus : Nat

def plainStatus (env : ShellEnv) : ScriptStep → Nat
  | .mkWorkdir => env.mkdirStatus
  | .gitInit => env.gitInitStatus
  | .gitConfigUser => env.gitConfigStatus
  | .gitConfigCred => env.credStatus
  | .addRemote => env.remoteStatus
  | .mcpInit c => env.mcpStatus c
  | .exportEnvVars => env.exportStatus
  | .writePromptFile => env.promptWriteStatus
  | _ => 0

/-- Run the script under `set -e` against the shell oracle: an explicit
`exit 1` or any command with nonzero status (output redirections do not
mask statuses) aborts the script there.  Returns the script's exit
status and whether the `claude` invocation was reached. -/
def runScript (env : ShellEnv) : List ScriptStep → Nat × Bool
  | [] => (0, false)
  | step :: rest =>
    match step with
    | .verifyCredFile => if env.credFileExists then runScript env rest else (1, false)
    | .fetchBranch _ => if env.fetchStatus = 0 then runScript env rest else (1, false)
    | .checkoutBranch _ =>
      if env.checkoutStatus = 0 then runScript env rest else (1, false)
    | .branchCheck b => if env.currentBranch = b then runScript env rest else (1, false)
    | .porcelainCheck => if env.porcelain = "" then runScript env rest else (1, false)
    | .invokeClaude =>
      if env.claudeStatus = 0 then ((runScript env rest).1, true)
      else (env.claudeStatus, true)
    | other =>
      if plainStatus env other = 0 then runScript env rest
      else (plainStatus env other, false)

/-! ## GitHubClient -/

inductive LogEv where
  | debugLog (msg : String)
  | warningLog (msg : String)
  | errorLog (msg : String)
deriving DecidableEq

structure IssueData where
  number : Nat
  title : String
  body : String
  htmlUrl : String
deriving DecidableEq

/-- Oracle for the underlying Octokit REST / GraphQL calls. -/
structure GithubCallEnv where
  restCreateIssue : Except String IssueData
  restGetIssue : Except String IssueData
  gqlAddToProject : Except String Unit
  gqlProjectItems : Except String (List String)
  gqlUpdateStatus : Except String Unit
  restCreatePull : Except String (Nat × String)
  restAddAssignees : Except String Unit
  restRequestReviewers : Except String Unit
  restAddLabels : Except String Unit

/-- `GitHubClient.createIssue` (github-client.ts lines 38–61): a failure
of the underlying REST call is logged and re-thrown, wrapped. -/
def githubCreateIssue (env : GithubCallEnv) : Except String IssueData × List LogEv :=
  match env.restCreateIssue with
  | .ok issue => (.ok issue, [.debugLog "Created issue"])
  | .error e =>
    (.error ("Failed to create GitHub issue: " ++ e),
     [.errorLog ("Failed to create issue: " ++ e)])

/-- `GitHubClient.addIssueToProject` (github-client.ts lines 92–124):
both the node-id lookup and the GraphQL mutation run inside one `try`
whose `catch` logs a warning and does not re-throw — project management
is optional. -/
def githubAddIssueToProject (env : GithubCallEnv) : Except String Unit × List LogEv :=
  match env.restGetIssue with
  | .error e => (.ok (), [.warningLog ("Failed to add issue to project: " ++ e)])
  | .ok _ =>
    match env.gqlAddToProject with
    | .error e => (.ok (), [.warningLog ("Failed to add issue to project: " ++ e)])
    | .ok _ => (.ok (), [.debugLog "Added issue to project"])

/-- `GitHubClient.updateProjectItemStatus` (github-client.ts lines
129–191): the item query, the empty-item-list case and the update
mutation all resolve inside one `try` whose `catch` logs a warning and
does not re-throw. -/
def githubUpdateProjectItemStatus (env : GithubCallEnv) :
    Except String Unit × List LogEv :=
  match env.gqlProjectItems with
  | .error e =>
    (.ok (), [.warningLog ("Failed to update project item status: " ++ e)])
  | .ok [] => (.ok (), [.warningLog "No project items found"])
  | .ok (_ :: _) =>
    match env.gqlUpdateStatus with
    | .error e =>
      (.ok (), [.warningLog ("Failed to update project item status: " ++ e)])
    | .ok _ => (.ok (), [.debugLog "Updated status"])

structure PullRequestOptions where
  assignees : Option (List String)
  reviewers : Option (List String)
  labels : Option (List String)

def optListNonempty : Option (List String) → Bool
  | none => false
  | some l => !l.isEmpty

/-- `GitHubClient.createPullRequest` (github-client.ts lines 196–256):
the creation call and the optional assignee/reviewer/label follow-ups
run inside one `try` whose `catch` wraps and **re-throws** every
failure. -/
def githubCreatePullRequest (env : GithubCallEnv) (opts : PullRequestOptions) :
    Except String (Nat × String) × List LogEv :=
  match env.restCreatePull with
  | .error e => (.error ("Failed to create pull request: " ++ e), [])
  | .ok pr =>
    match (if optListNonempty opts.assignees then env.restAddAssignees else .ok ()) with
    | .error e => (.error ("Failed to create pull request: " ++ e), [])
    | .ok _ =>
      match (if optListNonempty opts.reviewers then env.restRequestReviewers
             else .ok ()) with
      | .error e => (.error ("Failed to create pull request: " ++ e), [])
      | .ok _ =>
        match (if optListNonempty opts.labels then env.restAddLabels else .ok ()) with
        | .error e => (.error ("Failed to create pull request: " ++ e), [])
        | .ok _ => (.ok pr, [.debugLog "Created PR"])

/-! ## Basic lemmas about the matchers -/

theorem eatLit_length : ∀ (p s r : List Char), eatLit p s = some r →
    r.length + p.length = s.length := by
  intro p
  induction p with
  | nil =>
    intro s r h
    simp only [eatLit, Option.some.injEq] at h
    subst h
    simp
  | cons c cs ih =>
    intro s r h
    match s with
    | [] => simp [eatLit] at h
    | d :: ds =>
      simp only [eatLit] at h
      split at h
      · have := ih ds r h
        simp only [List.length_cons]
        omega
      · exact absurd h (by simp)

theorem eatLit_suffix : ∀ (p s r : List Char), eatLit p s = some r → r <:+ s := by
  intro p
  induction p with
  | nil =>
    intro s r h
    simp only [eatLit, Option.some.injEq] at h
    subst h
    exact List.suffix_rfl
  | cons c cs ih =>
    intro s r h
    match s with
    | [] => simp [eatLit] at h
    | d :: ds =>
      simp only [eatLit] at h
      split at h
      · exact (ih ds r h).trans (List.suffix_cons d ds)
      · exact absurd h (by simp)

theorem matchMarker_length (w s r : List Char) (h : matchMarker w s = some r) :
    r.length + 7 ≤ s.length := by
  unfold matchMarker at h
  cases h1 : eatLit ['<', '!', '-', '-'] s with
  | none => rw [h1] at h; cases h
  | some s1 =>
    rw [h1] at h
    dsimp only at h
    cases h2 : eatLit w (s1.dropWhile isJsWs) with
    | none => rw [h2] at h; cases h
    | some s3 =>
      rw [h2] at h
      dsimp only at h
      have l1 := eatLit_length _ _ _ h1
      have l2 := eatLit_length _ _ _ h2
      have l3 := eatLit_length _ _ _ h
      have d1 : (s1.dropWhile isJsWs).length ≤ s1.length :=
        (List.dropWhile_suffix isJsWs).length_le
      have d2 : (s3.dropWhile isJsWs).length ≤ s3.length :=
        (List.dropWhile_suffix isJsWs).length_le
      simp only [List.length_cons, List.length_nil] at l1 l3
      omega

theorem matchMarker_suffix (w s r : List Char) (h : matchMarker w s = some r) :
    r <:+ s := by
  unfold matchMarker at h
  cases h1 : eatLit ['<', '!', '-', '-'] s with
  | none => rw [h1] at h; cases h
  | some s1 =>
    rw [h1] at h
    dsimp only at h
    cases h2 : eatLit w (s1.dropWhile isJsWs) with
    | none => rw [h2] at h; cases h
    | some s3 =>
      rw [h2] at h
      dsimp only at h
      have : r <:+ s3.dropWhile isJsWs := eatLit_suffix _ _ _ h
      have : r <:+ s3 := this.trans (List.dropWhile_suffix _)
      have : r <:+ s1.dropWhile isJsWs := this.trans (eatLit_suffix _ _ _ h2)
      have : r <:+ s1 := this.trans (List.dropWhile_suffix _)
      exact this.trans (eatLit_suffix _ _ _ h1)

theorem findEnd_length : ∀ (s r : List Char), findEnd s = some r →
    r.length < s.length := by
  intro s
  induction s with
  | nil => intro r h; simp [findEnd] at h
  | cons c t ih =>
    intro r h
    simp only [findEnd] at h
    cases hm : matchEnd (c :: t) with
    | some r2 =>
      rw [hm] at h
      cases h
      have := matchMarker_length _ _ _ hm
      simp only [List.length_cons] at this ⊢
      omega
    | none =>
      rw [hm] at h
      have := ih r h
      simp only [List.length_cons]
      omega

theorem findEnd_suffix : ∀ (s r : List Char), findEnd s = some r → r <:+ s := by
  intro s
  induction s with
  | nil => intro r h; simp [findEnd] at h
  | cons c t ih =>
    intro r h
    simp only [findEnd] at h
    cases hm : matchEnd (c :: t) with
    | some r2 =>
      rw [hm] at h
      cases h
      exact matchMarker_suffix _ _ _ hm
    | none =>
      rw [hm] at h
      exact (ih r h).trans (List.suffix_cons c t)

/-! ## Fuel irrelevance and unfolding equations -/

theorem stripGo_nil (f : Nat) : stripGo f [] = [] := by cases f <;> rfl

theorem stripGo_congr : ∀ (f₁ f₂ : Nat) (s : List Char), s.length ≤ f₁ →
    s.length ≤ f₂ → stripGo f₁ s = stripGo f₂ s := by
  intro f₁
  induction f₁ with
  | zero =>
    intro f₂ s h₁ _
    have : s = [] := List.length_eq_zero.mp (Nat.le_zero.mp h₁)
    subst this
    rw [stripGo_nil, stripGo_nil]
  | succ f ih =>
    intro f₂ s h₁ h₂
    match s with
    | [] => rw [stripGo_nil, stripGo_nil]
    | c :: t =>
      match f₂ with
      | 0 => simp at h₂
      | g + 1 =>
        simp only [List.length_cons] at h₁ h₂
        simp only [stripGo]
        split
        · rename_i rem hm
          split
          · rename_i rem2 hf
            have hr : rem2.length ≤ t.length := by
              have := matchMarker_length _ _ _ hm
              have := findEnd_length _ _ hf
              simp only [List.length_cons] at *
              omega
            exact ih g rem2 (by omega) (by omega)
          · rw [ih g t (by omega) (by omega)]
        · rw [ih g t (by omega) (by omega)]

theorem stripSpans_nil : stripSpans [] = [] := rfl

theorem stripSpans_cons_none (c : Char) (t : List Char)
    (h : matchStart (c :: t) = none) : stripSpans (c :: t) = c :: stripSpans t := by
  show stripGo (t.length + 1) (c :: t) = _
  simp only [stripGo, h]
  rfl

theorem stripSpans_cons_some (c : Char) (t rem rem2 : List Char)
    (h1 : matchStart (c :: t) = some rem) (h2 : findEnd rem = some rem2) :
    stripSpans (c :: t) = stripSpans rem2 := by
  have hr : rem2.length ≤ t.length := by
    have := matchMarker_length _ _ _ h1
    have := findEnd_length _ _ h2
    simp only [List.length_cons] at *
    omega
  show stripGo (t.length + 1) (c :: t) = _
  simp only [stripGo, h1, h2]
  exact stripGo_congr _ _ _ hr le_rfl

theorem stripSpans_cons_noend (c : Char) (t rem : List Char)
    (h1 : matchStart (c :: t) = some rem) (h2 : findEnd rem = none) :
    stripSpans (c :: t) = c :: stripSpans t := by
  show stripGo (t.length + 1) (c :: t) = _
  simp only [stripGo, h1, h2]
  rfl

theorem length_takeWhile_lt_of_mem (p : Char → Bool) {l : List Char} {x : Char}
    (hx : x ∈ l) (hpx : p x = false) : (l.takeWhile p).length < l.length := by
  induction l with
  | nil => cases hx
  | cons c t ih =>
    cases hpc : p c with
    | false => simp [List.takeWhile, hpc]
    | true =>
      simp only [List.takeWhile, hpc, List.length_cons]
      rcases List.mem_cons.mp hx with rfl | hxt
      · rw [hpc] at hpx; cases hpx
      · exact Nat.succ_lt_succ (ih hxt)

theorem afterLastNl_length_le (l : List Char) : (afterLastNl l).length ≤ l.length := by
  unfold afterLastNl
  calc (l.reverse.takeWhile _).reverse.length
      = (l.reverse.takeWhile _).length := List.length_reverse _
    _ ≤ l.reverse.length := (List.takeWhile_prefix _).length_le
    _ = l.length := List.length_reverse _

theorem afterLastNl_length_lt (l : List Char) (h : '\n' ∈ l) :
    (afterLastNl l).length < l.length := by
  unfold afterLastNl
  have hx : '\n' ∈ l.reverse := List.mem_reverse.mpr h
  have := length_takeWhile_lt_of_mem (fun c => decide (c ≠ '\n')) hx (by simp)
  calc (l.reverse.takeWhile _).reverse.length
      = (l.reverse.takeWhile _).length := List.length_reverse _
    _ < l.reverse.length := this
    _ = l.length := List.length_reverse _

theorem collapse_cont_length (t : List Char) (h : 2 ≤ nlCount (wsRun t)) :
    (afterLastNl (wsRun t) ++ t.dropWhile isJsWs).length < t.length + 1 := by
  have hmem : '\n' ∈ wsRun t := by
    have : 0 < (wsRun t).count '\n' := by
      unfold nlCount at h
      omega
    exact List.count_pos_iff.mp this
  have h1 := afterLastNl_length_lt (wsRun t) hmem
  have h2 : (wsRun t).length + (t.dropWhile isJsWs).length = t.length := by
    rw [wsRun, ← List.length_append, List.takeWhile_append_dropWhile]
  simp only [List.length_append]
  omega

theorem collapseGo_nil (f : Nat) : collapseGo f [] = [] := by cases f <;> rfl

theorem collapseGo_congr : ∀ (f₁ f₂ : Nat) (s : List Char), s.length ≤ f₁ →
    s.length ≤ f₂ → collapseGo f₁ s = collapseGo f₂ s := by
  intro f₁
  induction f₁ with
  | zero =>
    intro f₂ s h₁ _
    have : s = [] := List.length_eq_zero.mp (Nat.le_zero.mp h₁)
    subst this
    rw [collapseGo_nil, collapseGo_nil]
  | succ f ih =>
    intro f₂ s h₁ h₂
    match s with
    | [] => rw [collapseGo_nil, collapseGo_nil]
    | c :: t =>
      match f₂ with
      | 0 => simp at h₂
      | g + 1 =>
        simp only [List.length_cons] at h₁ h₂
        simp only [collapseGo]
        by_cases hc : c = '\n' ∧ 2 ≤ nlCount (wsRun t)
        · rw [if_pos hc, if_pos hc]
          have := collapse_cont_length t hc.2
          rw [ih g _ (by omega) (by omega)]
        · rw [if_neg hc, if_neg hc, ih g t (by omega) (by omega)]

theorem collapse_nil : collapseNewlines [] = [] := rfl

theorem collapse_cons_pos (t : List Char) (h : 2 ≤ nlCount (wsRun t)) :
    collapseNewlines ('\n' :: t) =
      '\n' :: '\n' :: collapseNewlines (afterLastNl (wsRun t) ++ t.dropWhile isJsWs) := by
  show collapseGo (t.length + 1) ('\n' :: t) = _
  rw [collapseGo, if_pos ⟨rfl, h⟩]
  have := collapse_cont_length t h
  rw [collapseGo_congr t.length _ _ (by omega) le_rfl]
  rfl

theorem collapse_cons_neg (c : Char) (t : List Char)
    (h : ¬(c = '\n' ∧ 2 ≤ nlCount (wsRun t))) :
    collapseNewlines (c :: t) = c :: collapseNewlines t := by
  show collapseGo (t.length + 1) (c :: t) = _
  rw [collapseGo, if_neg h]
  rfl

/-! ## The canonical marker spellings -/

def startMarker : List Char := "<!-- CONSTECH-WORKER-START -->".data

def endMarker : List Char := "<!-- CONSTECH-WORKER-END -->".data

theorem matchStart_nil : matchStart [] = none := rfl

theorem matchEnd_nil : matchEnd [] = none := rfl

theorem matchStart_marker (r : List Char) : matchStart (startMarker ++ r) = some r := rfl

theorem matchEnd_marker (r : List Char) : matchEnd (endMarker ++ r) = some r := rfl

/-! ## Behaviour of the strip pass -/

theorem findEnd_of_matchEnd (s r : List Char) (h : matchEnd s = some r) :
    findEnd s = some r := by
  match s with
  | [] => rw [matchEnd_nil] at h; cases h
  | c :: t => simp [findEnd, h]

theorem findEnd_cons_none (c : Char) (t : List Char) (h : matchEnd (c :: t) = none) :
    findEnd (c :: t) = findEnd t := by
  simp [findEnd, h]

theorem findEnd_none_of_all : ∀ (s : List Char),
    (∀ j, j < s.length → matchEnd (s.drop j) = none) → findEnd s = none := by
  intro s
  induction s with
  | nil => intro _; rfl
  | cons c t ih =>
    intro h
    have h0 : matchEnd (c :: t) = none := by
      have := h 0 (by simp)
      simpa using this
    rw [findEnd_cons_none c t h0]
    exact ih (fun j hj => by
      have := h (j + 1) (by simp only [List.length_cons]; omega)
      simpa using this)

theorem findEnd_pair : ∀ (m b : List Char),
    (∀ j, j < m.length → matchEnd (m.drop j ++ endMarker ++ b) = none) →
    findEnd (m ++ endMarker ++ b) = some b := by
  intro m
  induction m with
  | nil =>
    intro b _
    simp only [List.nil_append]
    exact findEnd_of_matchEnd _ _ (matchEnd_marker b)
  | cons c m ih =>
    intro b hm
    have h0 : matchEnd (c :: (m ++ endMarker ++ b)) = none := by
      have := hm 0 (by simp)
      simpa using this
    have hx : (c :: m) ++ endMarker ++ b = c :: (m ++ endMarker ++ b) := by simp
    rw [hx, findEnd_cons_none _ _ h0]
    exact ih b (fun j hj => by
      have := hm (j + 1) (by simp only [List.length_cons]; omega)
      simpa using this)

theorem stripSpans_of_no_start : ∀ (s : List Char), hasStartMatch s = false →
    stripSpans s = s := by
  intro s
  induction s with
  | nil => intro _; rfl
  | cons c t ih =>
    intro h
    simp only [hasStartMatch, Bool.or_eq_false_iff] at h
    have hm : matchStart (c :: t) = none :=
      Option.not_isSome_iff_eq_none.mp (by simp [h.1])
    rw [stripSpans_cons_none c t hm, ih h.2]

theorem stripSpans_of_no_end : ∀ (s : List Char),
    (∀ j, j < s.length → matchEnd (s.drop j) = none) → stripSpans s = s := by
  intro s
  induction s with
  | nil => intro _; rfl
  | cons c t ih =>
    intro h
    have htail : ∀ j, j < t.length → matchEnd (t.drop j) = none := fun j hj => by
      have := h (j + 1) (by simp only [List.length_cons]; omega)
      simpa using this
    cases hm : matchStart (c :: t) with
    | none => rw [stripSpans_cons_none c t hm, ih htail]
    | some rem =>
      obtain ⟨p, hp⟩ := matchMarker_suffix _ _ _ hm
      have hfe : findEnd rem = none := by
        apply findEnd_none_of_all
        intro j hj
        have hdrop : rem.drop j = (c :: t).drop (p.length + j) := by
          rw [← hp, List.drop_append]
        have hlen : p.length + j < (c :: t).length := by
          have := congrArg List.length hp
          simp only [List.length_append] at this
          omega
        rw [hdrop]
        exact h _ hlen
      rw [stripSpans_cons_noend c t rem hm hfe, ih htail]

theorem stripSpans_match_step (s rem rem2 : List Char) (h1 : matchStart s = some rem)
    (h2 : findEnd rem = some rem2) : stripSpans s = stripSpans rem2 := by
  match s with
  | [] => rw [matchStart_nil] at h1; cases h1
  | c :: t => exact stripSpans_cons_some c t rem rem2 h1 h2

theorem stripSpans_pair : ∀ (a m b : List Char),
    (∀ i, i < a.length →
      matchStart (a.drop i ++ startMarker ++ m ++ endMarker ++ b) = none) →
    (∀ j, j < m.length → matchEnd (m.drop j ++ endMarker ++ b) = none) →
    stripSpans (a ++ startMarker ++ m ++ endMarker ++ b) = a ++ stripSpans b := by
  intro a
  induction a with
  | nil =>
    intro m b _ hm
    simp only [List.nil_append]
    have h1 : matchStart (startMarker ++ m ++ endMarker ++ b)
        = some (m ++ endMarker ++ b) := by
      have := matchStart_marker (m ++ endMarker ++ b)
      simpa [List.append_assoc] using this
    have h2 : findEnd (m ++ endMarker ++ b) = some b := findEnd_pair m b hm
    exact stripSpans_match_step _ _ _ h1 h2
  | cons a0 a' ih =>
    intro m b ha hm
    have hx : (a0 :: a') ++ startMarker ++ m ++ endMarker ++ b
        = a0 :: (a' ++ startMarker ++ m ++ endMarker ++ b) := by simp
    have h0 : matchStart (a0 :: (a' ++ startMarker ++ m ++ endMarker ++ b)) = none := by
      have := ha 0 (by simp)
      simpa using this
    rw [hx, stripSpans_cons_none _ _ h0, ih m b (fun i hi => by
      have := ha (i + 1) (by simp only [List.length_cons]; omega)
      simpa using this) hm]
    simp

/-! ## Behaviour of the collapse pass and of trim -/

theorem noTriple_cons (c : Char) (t : List Char) :
    noTriple (c :: t) =
      if c = '\n' ∧ 2 ≤ nlCount (wsRun t) then false else noTriple t := rfl

theorem dropWhile_head_false (p : Char → Bool) : ∀ (l : List Char) (c : Char)
    (r : List Char), l.dropWhile p = c :: r → p c = false := by
  intro l
  induction l with
  | nil => intro c r h; cases h
  | cons d t ih =>
    intro c r h
    cases hd : p d with
    | true =>
      rw [List.dropWhile_cons, if_pos hd] at h
      exact ih c r h
    | false =>
      rw [List.dropWhile_cons, if_neg (by simp [hd])] at h
      cases h
      exact hd

theorem dropWhile_idem (p : Char → Bool) (l : List Char) :
    (l.dropWhile p).dropWhile p = l.dropWhile p := by
  cases h : l.dropWhile p with
  | nil => rfl
  | cons c r =>
    have hc := dropWhile_head_false p l c r h
    rw [List.dropWhile_cons, if_neg (by simp [hc])]

theorem dropWhile_eq_self_head (p : Char → Bool) (l : List Char) (c : Char)
    (t : List Char) (hl : l = c :: t) (hself : l.dropWhile p = l) : p c = false := by
  subst hl
  cases hc : p c with
  | false => rfl
  | true =>
    rw [List.dropWhile_cons, if_pos hc] at hself
    have h1 : (t.dropWhile p).length ≤ t.length := (List.dropWhile_suffix p).length_le
    have h2 := congrArg List.length hself
    simp only [List.length_cons] at h2
    omega

theorem trimEnd_append (y : List Char) :
    trimEnd y ++ (y.reverse.takeWhile isJsWs).reverse = y := by
  unfold trimEnd
  rw [← List.reverse_append, List.takeWhile_append_dropWhile, List.reverse_reverse]

theorem trimEnd_idem (l : List Char) : trimEnd (trimEnd l) = trimEnd l := by
  unfold trimEnd
  rw [List.reverse_reverse, dropWhile_idem]

theorem jsTrim_idem (l : List Char) : jsTrim (jsTrim l) = jsTrim l := by
  unfold jsTrim
  have hself : (trimStart l).dropWhile isJsWs = trimStart l := dropWhile_idem isJsWs l
  have hts : trimStart (trimEnd (trimStart l)) = trimEnd (trimStart l) := by
    cases hc : trimEnd (trimStart l) with
    | nil => rfl
    | cons c r =>
      have hpre := trimEnd_append (trimStart l)
      rw [hc] at hpre
      have hhead : isJsWs c = false := by
        apply dropWhile_eq_self_head isJsWs (trimStart l) c
          (r ++ ((trimStart l).reverse.takeWhile isJsWs).reverse)
        · exact hpre.symm
        · exact hself
      show (c :: r).dropWhile isJsWs = c :: r
      rw [List.dropWhile_cons, if_neg (by simp [hhead])]
  rw [hts, trimEnd_idem]

theorem nlCount_wsRun_mono : ∀ (t q : List Char),
    nlCount (wsRun t) ≤ nlCount (wsRun (t ++ q)) := by
  intro t q
  induction t with
  | nil => simp [wsRun, nlCount]
  | cons c t ih =>
    cases hc : isJsWs c with
    | false =>
      simp only [wsRun, List.cons_append, List.takeWhile_cons, hc] at *
      simp [nlCount]
    | true =>
      simp only [wsRun, List.cons_append, List.takeWhile_cons, hc, if_true] at *
      simp only [nlCount, List.count_cons] at *
      omega

theorem noTriple_append_left : ∀ (l q : List Char), noTriple (l ++ q) = true →
    noTriple l = true := by
  intro l
  induction l with
  | nil => intro q _; rfl
  | cons c t ih =>
    intro q h
    rw [List.cons_append] at h
    by_cases hcq : c = '\n' ∧ 2 ≤ nlCount (wsRun (t ++ q))
    · rw [noTriple_cons, if_pos hcq] at h; cases h
    · rw [noTriple_cons, if_neg hcq] at h
      have hsmall : ¬(c = '\n' ∧ 2 ≤ nlCount (wsRun t)) := fun hcs =>
        hcq ⟨hcs.1, le_trans hcs.2 (nlCount_wsRun_mono t q)⟩
      rw [noTriple_cons, if_neg hsmall]
      exact ih q h

theorem noTriple_append_right : ∀ (p l : List Char), noTriple (p ++ l) = true →
    noTriple l = true := by
  intro p
  induction p with
  | nil => intro l h; simpa using h
  | cons c t ih =>
    intro l h
    rw [List.cons_append] at h
    by_cases hc : c = '\n' ∧ 2 ≤ nlCount (wsRun (t ++ l))
    · rw [noTriple_cons, if_pos hc] at h; cases h
    · rw [noTriple_cons, if_neg hc] at h
      exact ih l h

theorem noTriple_jsTrim (l : List Char) (h : noTriple l = true) :
    noTriple (jsTrim l) = true := by
  have h1 : noTriple (trimStart l) = true := by
    apply noTriple_append_right (l.takeWhile isJsWs)
    rw [trimStart, List.takeWhile_append_dropWhile]
    exact h
  apply noTriple_append_left (trimEnd (trimStart l))
    (((trimStart l).reverse.takeWhile isJsWs).reverse)
  rw [trimEnd_append]
  exact h1

theorem collapse_of_noTriple : ∀ (s : List Char), noTriple s = true →
    collapseNewlines s = s := by
  intro s
  induction s with
  | nil => intro _; rfl
  | cons c t ih =>
    intro h
    by_cases hc : c = '\n' ∧ 2 ≤ nlCount (wsRun t)
    · rw [noTriple_cons, if_pos hc] at h; cases h
    · rw [noTriple_cons, if_neg hc] at h
      rw [collapse_cons_neg c t hc, ih h]

theorem wsRun_collapse : ∀ (v : List Char), nlCount (wsRun v) ≤ 1 →
    wsRun (collapseNewlines v) = wsRun v := by
  intro v
  induction v with
  | nil => intro _; rfl
  | cons c t ih =>
    intro h
    cases hc : isJsWs c with
    | false =>
      have hcn : ¬(c = '\n' ∧ 2 ≤ nlCount (wsRun t)) := by
        rintro ⟨rfl, _⟩
        exact absurd hc (by decide)
      rw [collapse_cons_neg c t hcn]
      show (c :: collapseNewlines t).takeWhile isJsWs = (c :: t).takeWhile isJsWs
      rw [List.takeWhile_cons, List.takeWhile_cons, if_neg (by simp [hc]),
        if_neg (by simp [hc])]
    | true =>
      have hwc : wsRun (c :: t) = c :: wsRun t := by
        rw [wsRun, List.takeWhile_cons, if_pos hc]; rfl
      have hwc2 : wsRun (c :: collapseNewlines t) = c :: wsRun (collapseNewlines t) := by
        rw [wsRun, List.takeWhile_cons, if_pos hc]; rfl
      have hcnt : nlCount (wsRun t) ≤ 1 := by
        rw [hwc] at h
        simp only [nlCount, List.count_cons] at h ⊢
        omega
      have hcoll : nlCount (wsRun t) ≤ 1 → ¬(c = '\n' ∧ 2 ≤ nlCount (wsRun t)) := by
        rintro hle ⟨_, h2⟩
        omega
      rw [collapse_cons_neg c t (hcoll hcnt), hwc, hwc2, ih hcnt]

theorem afterLastNl_mem {l : List Char} {x : Char} (hx : x ∈ afterLastNl l) : x ∈ l := by
  unfold afterLastNl at hx
  rw [List.mem_reverse] at hx
  have := (List.takeWhile_prefix (fun c => decide (c ≠ '\n'))).subset hx
  exact List.mem_reverse.mp this

theorem afterLastNl_no_nl {l : List Char} {x : Char} (hx : x ∈ afterLastNl l) :
    x ≠ '\n' := by
  unfold afterLastNl at hx
  rw [List.mem_reverse] at hx
  have := List.mem_takeWhile_imp hx
  simpa using this

theorem wsRun_cont_zero (t : List Char) :
    nlCount (wsRun (afterLastNl (wsRun t) ++ t.dropWhile isJsWs)) = 0 := by
  have hall : ∀ x ∈ afterLastNl (wsRun t), isJsWs x = true := fun x hx =>
    List.mem_takeWhile_imp (afterLastNl_mem hx)
  have h1 : wsRun (afterLastNl (wsRun t) ++ t.dropWhile isJsWs)
      = afterLastNl (wsRun t) ++ (t.dropWhile isJsWs).takeWhile isJsWs := by
    rw [wsRun, List.takeWhile_append_of_pos]
    exact hall
  have h2 : (t.dropWhile isJsWs).takeWhile isJsWs = [] := by
    cases hd : t.dropWhile isJsWs with
    | nil => rfl
    | cons d r =>
      have := dropWhile_head_false isJsWs t d r hd
      rw [List.takeWhile_cons, if_neg (by simp [this])]
  rw [h1, h2, List.append_nil]
  exact List.count_eq_zero.mpr (fun hmem => afterLastNl_no_nl hmem rfl)

theorem noTriple_collapse_aux : ∀ (n : Nat) (v : List Char), v.length ≤ n →
    noTriple (collapseNewlines v) = true := by
  intro n
  induction n with
  | zero =>
    intro v hv
    have : v = [] := List.length_eq_zero.mp (Nat.le_zero.mp hv)
    subst this
    rfl
  | succ n ih =>
    intro v hv
    match v with
    | [] => rfl
    | c :: t =>
      simp only [List.length_cons] at hv
      by_cases hc : c = '\n' ∧ 2 ≤ nlCount (wsRun t)
      · obtain ⟨rfl, h2⟩ := hc
        rw [collapse_cons_pos t h2]
        have hu0 := wsRun_cont_zero t
        have hulen : (afterLastNl (wsRun t) ++ t.dropWhile isJsWs).length ≤ n := by
          have := collapse_cont_length t h2
          omega
        have hwsu : wsRun (collapseNewlines (afterLastNl (wsRun t) ++ t.dropWhile isJsWs))
            = wsRun (afterLastNl (wsRun t) ++ t.dropWhile isJsWs) :=
          wsRun_collapse _ (by omega)
        have hinner : nlCount (wsRun
            (collapseNewlines (afterLastNl (wsRun t) ++ t.dropWhile isJsWs))) = 0 := by
          rw [hwsu, hu0]
        have houter : wsRun ('\n' :: collapseNewlines
              (afterLastNl (wsRun t) ++ t.dropWhile isJsWs))
            = '\n' :: wsRun (collapseNewlines (afterLastNl (wsRun t)
              ++ t.dropWhile isJsWs)) := by
          rw [wsRun, List.takeWhile_cons, if_pos (by decide)]; rfl
        have hone : nlCount (wsRun ('\n' :: collapseNewlines
            (afterLastNl (wsRun t) ++ t.dropWhile isJsWs))) = 1 := by
          rw [houter]
          simp only [nlCount, List.count_cons]
          have h0 : (wsRun (collapseNewlines (afterLastNl (wsRun t)
              ++ t.dropWhile isJsWs))).count '\n' = 0 := hinner
          rw [h0]
          simp
        rw [noTriple_cons, if_neg (by
          rintro ⟨_, hbad⟩
          rw [hone] at hbad
          omega)]
        rw [noTriple_cons, if_neg (by
          rintro ⟨_, hbad⟩
          rw [hinner] at hbad
          omega)]
        exact ih _ hulen
      · rw [collapse_cons_neg c t hc, noTriple_cons, if_neg (by
          rintro ⟨rfl, hbad⟩
          have hle : nlCount (wsRun t) ≤ 1 := by
            by_contra hgt
            exact hc ⟨rfl, by omega⟩
          rw [wsRun_collapse t hle] at hbad
          omega)]
        exact ih t (by omega)

theorem noTriple_collapse (v : List Char) : noTriple (collapseNewlines v) = true :=
  noTriple_collapse_aux v.length v le_rfl

/-- The composite `jsTrim ∘ collapseNewlines` is stable: applying it to
its own output changes nothing. -/
theorem trim_collapse_stable (z : List Char) :
    jsTrim (collapseNewlines (jsTrim (collapseNewlines z))) = jsTrim (collapseNewlines z) := by
  have h2 : noTriple (jsTrim (collapseNewlines z)) = true :=
    noTriple_jsTrim _ (noTriple_collapse z)
  rw [collapse_of_noTriple _ h2, jsTrim_idem]

/-! ## Claim theorems: the instruction filter and title extraction -/

/-- **C3**: for every prompt containing a period, the issue title computed
by `createGitHubIssue` is the trimmed text before the first period and the
description is the trimmed text after that period (the period itself
stripped); for a prompt without a period the title is the filler-stripped
prompt truncated to its first 50 characters and the description is the
prompt unchanged. -/
theorem issueTitleDescription_spec : ∀ (p : List Char),
    ('.' ∈ p →
      ∃ before after, p = before ++ '.' :: after ∧ '.' ∉ before ∧
        issueTitleDescription p = (jsTrim before, jsTrim after)) ∧
    ('.' ∉ p →
      issueTitleDescription p = ((stripFiller p).take 50, p)) := by
  intro p
  constructor
  · intro hmem
    refine ⟨p.takeWhile (fun c => decide (c ≠ '.')),
      (p.dropWhile (fun c => decide (c ≠ '.'))).drop 1, ?_, ?_, ?_⟩
    · cases hd : p.dropWhile (fun c => decide (c ≠ '.')) with
      | nil =>
        exfalso
        have hall : p.takeWhile (fun c => decide (c ≠ '.')) = p := by
          have := List.takeWhile_append_dropWhile
            (fun c => decide (c ≠ '.')) p
          rw [hd, List.append_nil] at this
          exact this
        have := List.mem_takeWhile_imp (hall ▸ hmem)
        simp at this
      | cons d r =>
        have hdf := dropWhile_head_false (fun c => decide (c ≠ '.')) p d r hd
        have hdot : d = '.' := by simpa using hdf
        subst hdot
        have := List.takeWhile_append_dropWhile (fun c => decide (c ≠ '.')) p
        rw [hd] at this
        simpa using this.symm
    · intro hbad
      have := List.mem_takeWhile_imp hbad
      simp at this
    · have hcont : p.contains '.' = true := List.elem_eq_true_of_mem hmem
      unfold issueTitleDescription
      rw [if_pos hcont]
      have hsplit := List.takeWhile_append_dropWhile (fun c => decide (c ≠ '.')) p
      have hdropn : (p.takeWhile (fun c => decide (c ≠ '.'))
            ++ p.dropWhile (fun c => decide (c ≠ '.'))).drop
              ((p.takeWhile (fun c => decide (c ≠ '.'))).length + 1)
          = (p.dropWhile (fun c => decide (c ≠ '.'))).drop 1 := by
        rw [List.drop_append]
      rw [hsplit] at hdropn
      have hdropn2 : p.drop (dotIndex p + 1)
          = (p.dropWhile (fun c => decide (c ≠ '.'))).drop 1 := hdropn
      rw [hdropn2]
  · intro hmem
    have hcont : p.contains '.' = false := by
      cases hc : p.contains '.' with
      | false => rfl
      | true => exact absurd (List.mem_of_elem_eq_true hc) hmem
    unfold issueTitleDescription
    rw [if_neg (fun hc => hmem (List.mem_of_elem_eq_true hc))]
    show (if 50 < (stripFiller p).length then (stripFiller p).take 50
      else stripFiller p, p) = ((stripFiller p).take 50, p)
    by_cases hlen : 50 < (stripFiller p).length
    · rw [if_pos hlen]
    · rw [if_neg hlen]
      rw [List.take_of_length_le (by omega)]

/-- Witness for C3 at the spec's two examples: a prompt with a period and
a filler-phrase prompt without one. -/
theorem issueTitleDescription_spec_witness :
    (∃ before after,
      "Add dark mode toggle. Users should be able to switch themes.".data
        = before ++ '.' :: after ∧ '.' ∉ before ∧
      issueTitleDescription
        "Add dark mode toggle. Users should be able to switch themes.".data
        = (jsTrim before, jsTrim after)) ∧
    issueTitleDescription
      "please refactor the auth module for clarity and testability across the board".data
      = ((stripFiller
          "please refactor the auth module for clarity and testability across the board".data).take 50,
        "please refactor the auth module for clarity and testability across the board".data) :=
  ⟨(issueTitleDescription_spec _).1 (by decide),
   (issueTitleDescription_spec _).2 (by decide)⟩

/-- **C10**: `readClaudeInstructions` reports `hasWorkerSections` exactly
when the filtered text differs from the file content; for marker-free
content this happens exactly when blank-line collapsing or trimming
changed the text. -/
theorem readClaudeInstructions_hasWorkerSections : ∀ (content : List Char),
    ((readClaudeInstructions (some content)).hasWorkerSections = true ↔
      removeWorkerSections content ≠ content) ∧
    (hasStartMatch content = false →
      ((readClaudeInstructions (some content)).hasWorkerSections = true ↔
        jsTrim (collapseNewlines content) ≠ content)) ∧
    (readClaudeInstructions none).hasWorkerSections = false := by
  intro content
  refine ⟨?_, fun h => ?_, rfl⟩
  · show decide (content ≠ removeWorkerSections content) = true ↔ _
    constructor
    · intro hd
      exact fun he => (of_decide_eq_true hd) he.symm
    · intro hne
      exact decide_eq_true (fun he => hne he.symm)
  · have hfilter : removeWorkerSections content = jsTrim (collapseNewlines content) := by
      unfold removeWorkerSections
      rw [stripSpans_of_no_start content h]
    show decide (content ≠ removeWorkerSections content) = true ↔ _
    rw [hfilter]
    constructor
    · intro hd
      exact fun he => (of_decide_eq_true hd) he.symm
    · intro hne
      exact decide_eq_true (fun he => hne he.symm)

/-- Witness for C10: a marker-free file whose text is changed only by
trimming, where the flag is reported `true`. -/
theorem readClaudeInstructions_hasWorkerSections_witness :
    ((readClaudeInstructions (some "  spaced text".data)).hasWorkerSections = true ↔
      jsTrim (collapseNewlines "  spaced text".data) ≠ "  spaced text".data) :=
  (readClaudeInstructions_hasWorkerSections "  spaced text".data).2.1 (by decide)

/-- Counterexample for **C6** as stated: this text contains a single
unmatched START marker and no END marker, yet the filter does not return
it unmodified — the leading space is trimmed away. -/
theorem removeWorkerSections_unmatched_counterexample :
    removeWorkerSections " <!-- CONSTECH-WORKER-START -->".data
      ≠ " <!-- CONSTECH-WORKER-START -->".data := by
  decide

/-- **C6 (amended)**: a text containing one matched START/END marker pair
has the whole span, markers included, removed (the output is the
collapse-and-trim of the surrounding text); a text with a single
unmatched marker — a START with no END match anywhere, or text with no
START match at all — undergoes **no span removal**: the output is exactly
the blank-line collapse and trim of the input, marker retained. -/
theorem removeWorkerSections_markers : ∀ (a m b x y : List Char),
    ((∀ i, i < a.length →
        matchStart (a.drop i ++ startMarker ++ m ++ endMarker ++ b) = none) →
     (∀ j, j < m.length → matchEnd (m.drop j ++ endMarker ++ b) = none) →
     hasStartMatch b = false →
     removeWorkerSections (a ++ startMarker ++ m ++ endMarker ++ b)
       = jsTrim (collapseNewlines (a ++ b))) ∧
    ((∀ j, j < x.length → matchEnd (x.drop j) = none) →
     removeWorkerSections x = jsTrim (collapseNewlines x)) ∧
    (hasStartMatch y = false →
     removeWorkerSections y = jsTrim (collapseNewlines y)) := by
  intro a m b x y
  refine ⟨fun ha hm hb => ?_, fun hx => ?_, fun hy => ?_⟩
  · unfold removeWorkerSections
    rw [stripSpans_pair a m b ha hm, stripSpans_of_no_start b hb]
  · unfold removeWorkerSections
    rw [stripSpans_of_no_end x hx]
  · unfold removeWorkerSections
    rw [stripSpans_of_no_start y hy]

/-- Witness for C6 on concrete texts: a matched pair enclosing `secret`
is removed whole; a lone START marker and a lone END marker are left in
place. -/
theorem removeWorkerSections_markers_witness :
    (removeWorkerSections ("A\n".data ++ startMarker ++ "secret".data
        ++ endMarker ++ "B".data)
      = jsTrim (collapseNewlines ("A\n".data ++ "B".data))) ∧
    (removeWorkerSections "keep <!-- CONSTECH-WORKER-START --> tail".data
      = jsTrim (collapseNewlines "keep <!-- CONSTECH-WORKER-START --> tail".data)) ∧
    (removeWorkerSections "keep <!-- CONSTECH-WORKER-END --> tail".data
      = jsTrim (collapseNewlines "keep <!-- CONSTECH-WORKER-END --> tail".data)) :=
  ⟨(removeWorkerSections_markers "A\n".data "secret".data "B".data [] []).1
      (by decide) (by decide) (by decide),
   (removeWorkerSections_markers [] [] []
      "keep <!-- CONSTECH-WORKER-START --> tail".data []).2.1 (by decide),
   (removeWorkerSections_markers [] [] [] []
      "keep <!-- CONSTECH-WORKER-END --> tail".data).2.2 (by decide)⟩

set_option maxRecDepth 100000 in
/-- Counterexample for **C7** as stated: the filter is not idempotent.
Removing the inner matched span from this text splices the surrounding
fragments into a brand-new matched marker pair, which a second
application then removes. -/
theorem removeWorkerSections_not_idempotent :
    removeWorkerSections (removeWorkerSections
      ("<!-- CONSTECH-WORKER-ST<!-- CONSTECH-WORKER-START -->x<!-- CONSTECH-WORKER-END -->ART -->hello<!-- CONSTECH-WORKER-END -->".data))
    ≠ removeWorkerSections
      ("<!-- CONSTECH-WORKER-ST<!-- CONSTECH-WORKER-START -->x<!-- CONSTECH-WORKER-END -->ART -->hello<!-- CONSTECH-WORKER-END -->".data) := by
  decide

/-- **C7 (amended)**: the instruction filter is idempotent on every input
whose once-filtered output contains no matched marker pair (span removal
can splice fragments into a new matched pair, defeating idempotence in
general); and for input containing no START-marker match, filtering is
exactly blank-line collapsing plus edge trimming — no span is removed. -/
theorem removeWorkerSections_idem : ∀ (x y : List Char),
    (stripSpans (removeWorkerSections x) = removeWorkerSections x →
      removeWorkerSections (removeWorkerSections x) = removeWorkerSections x) ∧
    (hasStartMatch y = false →
      removeWorkerSections y = jsTrim (collapseNewlines y)) := by
  intro x y
  constructor
  · intro h
    show jsTrim (collapseNewlines (stripSpans (removeWorkerSections x)))
      = removeWorkerSections x
    rw [h]
    show jsTrim (collapseNewlines (jsTrim (collapseNewlines (stripSpans x)))) = _
    rw [trim_collapse_stable]
    rfl
  · intro hy
    unfold removeWorkerSections
    rw [stripSpans_of_no_start y hy]

/-- Witness for C7: filtering a text whose filtered form is marker-free
is idempotent, and a marker-free text is only collapsed and trimmed. -/
theorem removeWorkerSections_idem_witness :
    (removeWorkerSections (removeWorkerSections
      "A<!-- CONSTECH-WORKER-START -->s<!-- CONSTECH-WORKER-END -->B".data)
      = removeWorkerSections
        "A<!-- CONSTECH-WORKER-START -->s<!-- CONSTECH-WORKER-END -->B".data) ∧
    (removeWorkerSections "no markers here".data
      = jsTrim (collapseNewlines "no markers here".data)) :=
  ⟨(removeWorkerSections_idem
      "A<!-- CONSTECH-WORKER-START -->s<!-- CONSTECH-WORKER-END -->B".data []).1
      (by decide),
   (removeWorkerSections_idem [] "no markers here".data).2 (by decide)⟩

/-! ## Claim theorems: the workflow executor -/

/-- Outcome shape of a run of `execute` that aborted before the
EXECUTING phase: the exception propagates, nothing was finalized, the
cleanup registry is untouched and no container teardown ran. -/
def ExecAborted (reg0 : List Nat) (out : ExecOut) : Prop :=
  Ev.execWorkflow ∉ out.trace ∧
  out.trace.count Ev.execWorkflow = 0 ∧
  out.trace.count Ev.cleanupContainer = 0 ∧
  out.trace.count Ev.unregisterCleanupEv = 0 ∧
  out.trace.count Ev.finalize = 0 ∧
  out.results.endTimeSet = false ∧
  out.registry = reg0 ∧
  (∃ e, out.result = Except.error e)

/-- Outcome shape of a run of `execute` that reached the EXECUTING
phase: the results are finalized exactly once, the container teardown
and the registry removal each run exactly once, and the terminal outcome
mirrors the EXECUTING result. -/
def ExecReached (env : ExecEnv) (reg0 : List Nat) (tok : Nat) (out : ExecOut) : Prop :=
  Ev.execWorkflow ∈ out.trace ∧
  out.trace.count Ev.execWorkflow = 1 ∧
  out.trace.count Ev.cleanupContainer = 1 ∧
  out.trace.count Ev.unregisterCleanupEv = 1 ∧
  out.trace.count Ev.finalize = 1 ∧
  out.results.endTimeSet = true ∧
  (tok ∉ reg0 → out.registry = reg0) ∧
  (∀ u, env.execRes = Except.ok u →
    out.result = Except.ok () ∧ out.results.success = true) ∧
  (∀ e, env.execRes = Except.error e →
    out.result = Except.error e ∧ out.results.success = false ∧
    out.results.error = some e)

theorem executeFromPrepare_shape (env : ExecEnv) (r : WorkflowResults)
    (reg0 : List Nat) (tok : Nat) (t : List Ev)
    (h1 : Ev.execWorkflow ∉ t) (h2 : t.count Ev.execWorkflow = 0)
    (h3 : t.count Ev.cleanupContainer = 0) (h4 : t.count Ev.unregisterCleanupEv = 0)
    (h5 : t.count Ev.finalize = 0) (h6 : r.endTimeSet = false) :
    ExecAborted reg0 (executeFromPrepare env r reg0 tok t) ∨
    ExecReached env reg0 tok (executeFromPrepare env r reg0 tok t) := by
  obtain ⟨gi, cir, usr, prr, exr⟩ := env
  cases prr with
  | error e =>
    left
    have heq : executeFromPrepare ⟨gi, cir, usr, Except.error e, exr⟩ r reg0 tok t
        = ⟨Except.error e, r, reg0, t ++ [Ev.prepareContainer]⟩ := rfl
    rw [heq]
    refine ⟨?_, ?_, ?_, ?_, ?_, h6, rfl, ⟨e, rfl⟩⟩
    · rintro hmem
      rcases List.mem_append.mp hmem with hx | hx
      · exact h1 hx
      · exact absurd hx (by decide)
    · show (t ++ [Ev.prepareContainer]).count Ev.execWorkflow = 0
      rw [List.count_append, h2]
      decide
    · show (t ++ [Ev.prepareContainer]).count Ev.cleanupContainer = 0
      rw [List.count_append, h3]
      decide
    · show (t ++ [Ev.prepareContainer]).count Ev.unregisterCleanupEv = 0
      rw [List.count_append, h4]
      decide
    · show (t ++ [Ev.prepareContainer]).count Ev.finalize = 0
      rw [List.count_append, h5]
      decide
  | ok cid =>
    right
    cases exr with
    | ok u =>
      have heq : executeFromPrepare ⟨gi, cir, usr, Except.ok cid, Except.ok u⟩ r reg0 tok t
          = ⟨Except.ok (),
             { r with containerId := some cid, success := true, endTimeSet := true },
             (reg0 ++ [tok]).erase tok,
             (t ++ [Ev.prepareContainer, Ev.registerCleanupEv])
               ++ [Ev.execWorkflow, Ev.finalize, Ev.displaySummary,
                   Ev.unregisterCleanupEv, Ev.cleanupContainer]⟩ := rfl
      rw [heq]
      refine ⟨?_, ?_, ?_, ?_, ?_, rfl, ?_, ?_, ?_⟩
      · exact List.mem_append.mpr (Or.inr (by decide))
      · show ((t ++ [Ev.prepareContainer, Ev.registerCleanupEv]) ++ _).count Ev.execWorkflow = 1
        rw [List.count_append, List.count_append, h2]
        decide
      · show ((t ++ [Ev.prepareContainer, Ev.registerCleanupEv]) ++ _).count Ev.cleanupContainer = 1
        rw [List.count_append, List.count_append, h3]
        decide
      · show ((t ++ [Ev.prepareContainer, Ev.registerCleanupEv]) ++ _).count Ev.unregisterCleanupEv = 1
        rw [List.count_append, List.count_append, h4]
        decide
      · show ((t ++ [Ev.prepareContainer, Ev.registerCleanupEv]) ++ _).count Ev.finalize = 1
        rw [List.count_append, List.count_append, h5]
        decide
      · intro hreg
        show (reg0 ++ [tok]).erase tok = reg0
        rw [List.erase_append_right _ hreg, List.erase_cons_head, List.append_nil]
      · intro u' _
        exact ⟨rfl, rfl⟩
      · intro e he
        exact Except.noConfusion he
    | error e =>
      have heq : executeFromPrepare ⟨gi, cir, usr, Except.ok cid, Except.error e⟩ r reg0 tok t
          = ⟨Except.error e,
             { r with containerId := some cid, success := false, endTimeSet := true,
                      error := some e },
             (reg0 ++ [tok]).erase tok,
             (t ++ [Ev.prepareContainer, Ev.registerCleanupEv])
               ++ [Ev.execWorkflow, Ev.finalize, Ev.displaySummary,
                   Ev.unregisterCleanupEv, Ev.cleanupContainer]⟩ := rfl
      rw [heq]
      refine ⟨?_, ?_, ?_, ?_, ?_, rfl, ?_, ?_, ?_⟩
      · exact List.mem_append.mpr (Or.inr (by decide))
      · show ((t ++ [Ev.prepareContainer, Ev.registerCleanupEv]) ++ _).count Ev.execWorkflow = 1
        rw [List.count_append, List.count_append, h2]
        decide
      · show ((t ++ [Ev.prepareContainer, Ev.registerCleanupEv]) ++ _).count Ev.cleanupContainer = 1
        rw [List.count_append, List.count_append, h3]
        decide
      · show ((t ++ [Ev.prepareContainer, Ev.registerCleanupEv]) ++ _).count Ev.unregisterCleanupEv = 1
        rw [List.count_append, List.count_append, h4]
        decide
      · show ((t ++ [Ev.prepareContainer, Ev.registerCleanupEv]) ++ _).count Ev.finalize = 1
        rw [List.count_append, List.count_append, h5]
        decide
      · intro hreg
        show (reg0 ++ [tok]).erase tok = reg0
        rw [List.erase_append_right _ hreg, List.erase_cons_head, List.append_nil]
      · intro u' hu
        exact Except.noConfusion hu
      · intro e' he
        cases he
        exact ⟨rfl, rfl, rfl⟩

theorem executeFromStatus_shape (cfg : GithubConfig) (env : ExecEnv)
    (inum : Option Nat) (r : WorkflowResults) (reg0 : List Nat) (tok : Nat) (t : List Ev)
    (h1 : Ev.execWorkflow ∉ t) (h2 : t.count Ev.execWorkflow = 0)
    (h3 : t.count Ev.cleanupContainer = 0) (h4 : t.count Ev.unregisterCleanupEv = 0)
    (h5 : t.count Ev.finalize = 0) (h6 : r.endTimeSet = false) :
    ExecAborted reg0 (executeFromStatus cfg env inum r reg0 tok t) ∨
    ExecReached env reg0 tok (executeFromStatus cfg env inum r reg0 tok t) := by
  unfold executeFromStatus
  by_cases hcond : (inum.isSome && cfg.hasProjectId) = true
  · rw [if_pos hcond]
    generalize setIssueStatusModel cfg env = ss
    cases ss with
    | error e =>
      left
      refine ⟨?_, ?_, ?_, ?_, ?_, h6, rfl, ⟨e, rfl⟩⟩
      · rintro hmem
        rcases List.mem_append.mp hmem with hx | hx
        · exact h1 hx
        · exact absurd hx (by decide)
      · show (t ++ [Ev.setStatusCall]).count Ev.execWorkflow = 0
        rw [List.count_append, h2]
        decide
      · show (t ++ [Ev.setStatusCall]).count Ev.cleanupContainer = 0
        rw [List.count_append, h3]
        decide
      · show (t ++ [Ev.setStatusCall]).count Ev.unregisterCleanupEv = 0
        rw [List.count_append, h4]
        decide
      · show (t ++ [Ev.setStatusCall]).count Ev.finalize = 0
        rw [List.count_append, h5]
        decide
    | ok u =>
      refine executeFromPrepare_shape env r reg0 tok (t ++ [Ev.setStatusCall])
        ?_ ?_ ?_ ?_ ?_ h6
      · rintro hmem
        rcases List.mem_append.mp hmem with hx | hx
        · exact h1 hx
        · exact absurd hx (by decide)
      · rw [List.count_append, h2]; decide
      · rw [List.count_append, h3]; decide
      · rw [List.count_append, h4]; decide
      · rw [List.count_append, h5]; decide
  · rw [if_neg hcond]
    exact executeFromPrepare_shape env r reg0 tok t h1 h2 h3 h4 h5 h6

theorem fetchTitleResults_endTimeSet (env : ExecEnv) (opts : ExecutionOptions) :
    (fetchTitleResults env opts).endTimeSet = false := by
  unfold fetchTitleResults
  split
  · split <;> rfl
  · rfl

theorem fetchTitleTrace_cases (opts : ExecutionOptions) :
    fetchTitleTrace opts = [] ∨ fetchTitleTrace opts = [Ev.getIssue] := by
  unfold fetchTitleTrace
  split
  · exact Or.inr rfl
  · exact Or.inl rfl

theorem modelExecute_shape (cfg : GithubConfig) (env : ExecEnv) (opts : ExecutionOptions)
    (reg0 : List Nat) (tok : Nat) :
    ExecAborted reg0 (modelExecute cfg env opts reg0 tok) ∨
    ExecReached env reg0 tok (modelExecute cfg env opts reg0 tok) := by
  have hT := fetchTitleTrace_cases opts
  have hR := fetchTitleResults_endTimeSet env opts
  have hfacts : Ev.execWorkflow ∉ fetchTitleTrace opts ∧
      (fetchTitleTrace opts).count Ev.execWorkflow = 0 ∧
      (fetchTitleTrace opts).count Ev.cleanupContainer = 0 ∧
      (fetchTitleTrace opts).count Ev.unregisterCleanupEv = 0 ∧
      (fetchTitleTrace opts).count Ev.finalize = 0 := by
    rcases hT with h | h <;> rw [h] <;>
      exact ⟨by decide, by decide, by decide, by decide, by decide⟩
  obtain ⟨hf1, hf2, hf3, hf4, hf5⟩ := hfacts
  have hcfacts : Ev.execWorkflow ∉ fetchTitleTrace opts ++ [Ev.createIssueCall] ∧
      (fetchTitleTrace opts ++ [Ev.createIssueCall]).count Ev.execWorkflow = 0 ∧
      (fetchTitleTrace opts ++ [Ev.createIssueCall]).count Ev.cleanupContainer = 0 ∧
      (fetchTitleTrace opts ++ [Ev.createIssueCall]).count Ev.unregisterCleanupEv = 0 ∧
      (fetchTitleTrace opts ++ [Ev.createIssueCall]).count Ev.finalize = 0 := by
    refine ⟨?_, ?_, ?_, ?_, ?_⟩
    · rintro hmem
      rcases List.mem_append.mp hmem with hx | hx
      · exact hf1 hx
      · exact absurd hx (by decide)
    · rw [List.count_append, hf2]; decide
    · rw [List.count_append, hf3]; decide
    · rw [List.count_append, hf4]; decide
    · rw [List.count_append, hf5]; decide
  obtain ⟨hc1, hc2, hc3, hc4, hc5⟩ := hcfacts
  obtain ⟨inum, pr, ci⟩ := opts
  cases ci with
  | false =>
    cases pr <;>
      exact executeFromStatus_shape cfg env inum _ reg0 tok _ hf1 hf2 hf3 hf4 hf5 hR
  | true =>
    cases pr with
    | none =>
      exact executeFromStatus_shape cfg env inum _ reg0 tok _ hf1 hf2 hf3 hf4 hf5 hR
    | some p =>
      show ExecAborted reg0 (if p.isEmpty then _ else _) ∨
        ExecReached env reg0 tok (if p.isEmpty then _ else _)
      by_cases hpe : p.isEmpty = true
      · rw [if_pos hpe]
        exact executeFromStatus_shape cfg env inum _ reg0 tok _ hf1 hf2 hf3 hf4 hf5 hR
      · rw [if_neg hpe]
        generalize env.createIssueRes = cres
        cases cres with
        | error e =>
          left
          exact ⟨hc1, hc2, hc3, hc4, hc5, hR, rfl, ⟨e, rfl⟩⟩
        | ok n =>
          exact executeFromStatus_shape cfg env (some n) _ reg0 tok _
            hc1 hc2 hc3 hc4 hc5 hR

/-- **C1**: in every run of `execute` in which the container has been
created (the run reached EXECUTING) and the EXECUTING phase throws, the
container teardown `cleanupContainer` still runs exactly once, the
cleanup-manager entry registered for the run is removed exactly once and
the registry is restored to its pre-run state, so a later interrupt
cannot tear the same container down a second time. -/
theorem execute_cleanup_once (cfg : GithubConfig) (env : ExecEnv)
    (opts : ExecutionOptions) (reg0 : List Nat) (tok : Nat) (e : String)
    (hreg : tok ∉ reg0) (hexec : env.execRes = Except.error e)
    (hin : Ev.execWorkflow ∈ (modelExecute cfg env opts reg0 tok).trace) :
    (modelExecute cfg env opts reg0 tok).trace.count Ev.cleanupContainer = 1 ∧
    (modelExecute cfg env opts reg0 tok).trace.count Ev.unregisterCleanupEv = 1 ∧
    (modelExecute cfg env opts reg0 tok).registry = reg0 ∧
    (modelExecute cfg env opts reg0 tok).result = Except.error e := by
  rcases modelExecute_shape cfg env opts reg0 tok with h | h
  · exact absurd hin h.1
  · obtain ⟨_, _, hc, hu, _, _, hr, _, herr⟩ := h
    exact ⟨hc, hu, hr hreg, (herr e hexec).1⟩

/-- Witness for C1: a run with an existing issue, a configured board, a
successfully created container, and an EXECUTING phase that throws. -/
theorem execute_cleanup_once_witness :
    (modelExecute ⟨true, true, true⟩
        ⟨Except.ok ['T'], Except.ok 1, Except.ok (), Except.ok "c1", Except.error "boom"⟩
        ⟨some 7, none, false⟩ [] 0).trace.count Ev.cleanupContainer = 1 ∧
    (modelExecute ⟨true, true, true⟩
        ⟨Except.ok ['T'], Except.ok 1, Except.ok (), Except.ok "c1", Except.error "boom"⟩
        ⟨some 7, none, false⟩ [] 0).trace.count Ev.unregisterCleanupEv = 1 ∧
    (modelExecute ⟨true, true, true⟩
        ⟨Except.ok ['T'], Except.ok 1, Except.ok (), Except.ok "c1", Except.error "boom"⟩
        ⟨some 7, none, false⟩ [] 0).registry = [] ∧
    (modelExecute ⟨true, true, true⟩
        ⟨Except.ok ['T'], Except.ok 1, Except.ok (), Except.ok "c1", Except.error "boom"⟩
        ⟨some 7, none, false⟩ [] 0).result = Except.error "boom" :=
  execute_cleanup_once ⟨true, true, true⟩
    ⟨Except.ok ['T'], Except.ok 1, Except.ok (), Except.ok "c1", Except.error "boom"⟩
    ⟨some 7, none, false⟩ [] 0 "boom" (by decide) rfl (by decide)

/-- Counterexample for **C2** as stated: a run whose container
preparation throws propagates the exception with `workflowResults` never
finalized — no end time is written and the error field stays empty, so
the state is not "finalized exactly once ... whether it returns normally
or an exception propagates". -/
theorem execute_not_finalized_counterexample :
    (modelExecute ⟨false, false, false⟩
        ⟨Except.ok [], Except.ok 1, Except.ok (), Except.error "prep failed", Except.ok ()⟩
        ⟨none, some ['f'], false⟩ [] 0).result = Except.error "prep failed" ∧
    (modelExecute ⟨false, false, false⟩
        ⟨Except.ok [], Except.ok 1, Except.ok (), Except.error "prep failed", Except.ok ()⟩
        ⟨none, some ['f'], false⟩ [] 0).results.endTimeSet = false ∧
    (modelExecute ⟨false, false, false⟩
        ⟨Except.ok [], Except.ok 1, Except.ok (), Except.error "prep failed", Except.ok ()⟩
        ⟨none, some ['f'], false⟩ [] 0).trace.count Ev.finalize = 0 ∧
    (modelExecute ⟨false, false, false⟩
        ⟨Except.ok [], Except.ok 1, Except.ok (), Except.error "prep failed", Except.ok ()⟩
        ⟨none, some ['f'], false⟩ [] 0).results.error = none := by
  refine ⟨rfl, rfl, rfl, rfl⟩

/-- **C2 (amended)**: `workflowResults` is finalized exactly once —
end time written, outcome populated — for every run that reaches the
EXECUTING phase, whether it succeeds or throws; a run that throws
earlier (issue creation, status setting, container preparation)
propagates the exception without finalization: no end time is set and
no finalize step runs. -/
theorem execute_finalize_exactly_once (cfg : GithubConfig) (env : ExecEnv)
    (opts : ExecutionOptions) (reg0 : List Nat) (tok : Nat) :
    (modelExecute cfg env opts reg0 tok).trace.count Ev.finalize
      = (modelExecute cfg env opts reg0 tok).trace.count Ev.execWorkflow ∧
    (modelExecute cfg env opts reg0 tok).trace.count Ev.finalize ≤ 1 ∧
    ((modelExecute cfg env opts reg0 tok).results.endTimeSet = true ↔
      Ev.execWorkflow ∈ (modelExecute cfg env opts reg0 tok).trace) ∧
    (Ev.execWorkflow ∉ (modelExecute cfg env opts reg0 tok).trace →
      ∃ e, (modelExecute cfg env opts reg0 tok).result = Except.error e) ∧
    (∀ e, env.execRes = Except.error e →
      Ev.execWorkflow ∈ (modelExecute cfg env opts reg0 tok).trace →
      (modelExecute cfg env opts reg0 tok).result = Except.error e ∧
      (modelExecute cfg env opts reg0 tok).results.success = false ∧
      (modelExecute cfg env opts reg0 tok).results.error = some e) ∧
    (∀ u, env.execRes = Except.ok u →
      (modelExecute cfg env opts reg0 tok).result = Except.ok () →
      (modelExecute cfg env opts reg0 tok).results.success = true) := by
  rcases modelExecute_shape cfg env opts reg0 tok with h | h
  · obtain ⟨hnin, hce, hcc, hcu, hcf, hets, hreg, e0, hr⟩ := h
    refine ⟨by rw [hcf, hce], by rw [hcf]; decide, ?_, fun _ => ⟨e0, hr⟩, ?_, ?_⟩
    · constructor
      · intro hx
        rw [hets] at hx
        cases hx
      · intro hx
        exact absurd hx hnin
    · intro e _ hmem
      exact absurd hmem hnin
    · intro u _ hok
      rw [hr] at hok
      exact Except.noConfusion hok
  · obtain ⟨hin, hce, hcc, hcu, hcf, hets, hreg, hok, herr⟩ := h
    refine ⟨by rw [hcf, hce], by rw [hcf], ?_, fun hx => absurd hin hx, ?_, ?_⟩
    · exact ⟨fun _ => hin, fun _ => hets⟩
    · intro e he _
      exact herr e he
    · intro u hu _
      exact (hok u hu).2

/-- Witness for C2: a run that reaches EXECUTING and throws there is
finalized once with the error recorded. -/
theorem execute_finalize_exactly_once_witness :
    (modelExecute ⟨false, false, false⟩
        ⟨Except.ok [], Except.ok 1, Except.ok (), Except.ok "c9", Except.error "agent died"⟩
        ⟨none, some ['f'], false⟩ [] 3).result = Except.error "agent died" ∧
    (modelExecute ⟨false, false, false⟩
        ⟨Except.ok [], Except.ok 1, Except.ok (), Except.ok "c9", Except.error "agent died"⟩
        ⟨none, some ['f'], false⟩ [] 3).results.success = false ∧
    (modelExecute ⟨false, false, false⟩
        ⟨Except.ok [], Except.ok 1, Except.ok (), Except.ok "c9", Except.error "agent died"⟩
        ⟨none, some ['f'], false⟩ [] 3).results.error = some "agent died" :=
  (execute_finalize_exactly_once ⟨false, false, false⟩
    ⟨Except.ok [], Except.ok 1, Except.ok (), Except.ok "c9", Except.error "agent died"⟩
    ⟨none, some ['f'], false⟩ [] 3).2.2.2.2.1 "agent died" rfl (by decide)

/-! ## Claim theorems: dispatch validation, script, client, signals -/

/-- **C4**: a dispatch request with neither an issue number nor a prompt
is rejected with exit code 1 before anything at all happens — no banner,
no config load, and in particular no network or container operation; the
same for a request carrying both an issue number and the create-issue
flag. -/
theorem dispatch_validation (opts : DispatchOptions) (env : DispatchEnv) :
    (truthyStr opts.issue = false → truthyStr opts.prompt = false →
      dispatchCommand opts env = (DispatchOutcome.exited 1, [])) ∧
    (truthyStr opts.issue = true → opts.createIssue = true →
      dispatchCommand opts env = (DispatchOutcome.exited 1, [])) := by
  constructor
  · intro h1 h2
    unfold dispatchCommand
    rw [if_pos (by rw [h1, h2]; rfl)]
  · intro h1 h2
    unfold dispatchCommand
    rw [if_neg (by rw [h1]; simp), if_pos (by rw [h1, h2]; rfl)]

/-- Witness for C4 at concrete option records: an empty request and a
request with `--issue 12 --create-issue`. -/
theorem dispatch_validation_witness :
    dispatchCommand ⟨none, none, false, false, false⟩
      ⟨Except.ok (), true, some "tok", Except.ok ()⟩
      = (DispatchOutcome.exited 1, []) ∧
    dispatchCommand ⟨some "12", none, true, false, false⟩
      ⟨Except.ok (), true, some "tok", Except.ok ()⟩
      = (DispatchOutcome.exited 1, []) :=
  ⟨(dispatch_validation ⟨none, none, false, false, false⟩
      ⟨Except.ok (), true, some "tok", Except.ok ()⟩).1 (by decide) (by decide),
   (dispatch_validation ⟨some "12", none, true, false, false⟩
      ⟨Except.ok (), true, some "tok", Except.ok ()⟩).2 (by decide) rfl⟩

/-- **C5**: the generated bootstrap script places the working-branch
check and the `git status --porcelain` check before the `claude`
invocation, and under any shell oracle in which the checked-out branch
differs from the configured working branch or the porcelain output is
nonempty, the script exits with a nonzero status without the agent
invocation ever running. -/
theorem script_checks_guard_claude (cfg : ScriptConfig) (env : ShellEnv) :
    (∃ pre post, generateWorkflowScript cfg
        = pre ++ [ScriptStep.branchCheck cfg.workingBranch, ScriptStep.porcelainCheck]
          ++ post ∧
      ScriptStep.invokeClaude ∉ pre) ∧
    (env.currentBranch ≠ cfg.workingBranch ∨ env.porcelain ≠ "" →
      (runScript env (generateWorkflowScript cfg)).1 ≠ 0 ∧
      (runScript env (generateWorkflowScript cfg)).2 = false) := by
  constructor
  · refine ⟨[ScriptStep.verifyCredFile, ScriptStep.mkWorkdir, ScriptStep.gitInit,
      ScriptStep.gitConfigUser, ScriptStep.gitConfigCred, ScriptStep.addRemote,
      ScriptStep.fetchBranch cfg.workingBranch, ScriptStep.checkoutBranch cfg.workingBranch],
      cfg.mcpInitCommands.map ScriptStep.mcpInit
        ++ [ScriptStep.exportEnvVars, ScriptStep.writePromptFile, ScriptStep.invokeClaude],
      ?_, ?_⟩
    · simp [generateWorkflowScript]
    · simp
  · intro hviol
    unfold generateWorkflowScript
    simp only [List.cons_append, List.nil_append]
    simp only [runScript, plainStatus]
    split_ifs <;> simp_all

/-- Witness for C5: a concrete configuration with working branch
`staging` and a shell that checked out `main`. -/
theorem script_checks_guard_claude_witness :
    (runScript ⟨true, 0, 0, 0, 0, 0, 0, 0, "main", "", fun _ => 0, 0, 0, 0⟩
      (generateWorkflowScript ⟨"staging", []⟩)).1 ≠ 0 ∧
    (runScript ⟨true, 0, 0, 0, 0, 0, 0, 0, "main", "", fun _ => 0, 0, 0, 0⟩
      (generateWorkflowScript ⟨"staging", []⟩)).2 = false :=
  (script_checks_guard_claude ⟨"staging", []⟩
    ⟨true, 0, 0, 0, 0, 0, 0, 0, "main", "", fun _ => 0, 0, 0, 0⟩).2
    (Or.inl (by decide))

/-- **C8**: the GitHubClient failure taxonomy — the primary operations
`createIssue` and `createPullRequest` re-throw a failing underlying
call (wrapped), while the auxiliary operations `addIssueToProject` and
`updateProjectItemStatus` always return normally, logging a warning when
the underlying call fails. -/
theorem githubClient_error_taxonomy (env : GithubCallEnv) (opts : PullRequestOptions) :
    (∀ e, env.restCreateIssue = Except.error e →
      (githubCreateIssue env).1 = Except.error ("Failed to create GitHub issue: " ++ e)) ∧
    (githubAddIssueToProject env).1 = Except.ok () ∧
    (∀ e, env.restGetIssue = Except.error e →
      LogEv.warningLog ("Failed to add issue to project: " ++ e)
        ∈ (githubAddIssueToProject env).2) ∧
    (githubUpdateProjectItemStatus env).1 = Except.ok () ∧
    (∀ e, env.gqlProjectItems = Except.error e →
      LogEv.warningLog ("Failed to update project item status: " ++ e)
        ∈ (githubUpdateProjectItemStatus env).2) ∧
    (∀ e, env.restCreatePull = Except.error e →
      (githubCreatePullRequest env opts).1
        = Except.error ("Failed to create pull request: " ++ e)) := by
  obtain ⟨rci, rgi, gadd, gitems, gupd, rpull, rass, rrev, rlab⟩ := env
  refine ⟨?_, ?_, ?_, ?_, ?_, ?_⟩
  · intro e he
    cases rci with
    | ok v => exact Except.noConfusion he
    | error e' => cases he; rfl
  · show (githubAddIssueToProject ⟨rci, rgi, gadd, gitems, gupd, rpull, rass, rrev, rlab⟩).1
      = Except.ok ()
    cases rgi with
    | error e => rfl
    | ok v => cases gadd <;> rfl
  · intro e he
    cases rgi with
    | ok v => exact Except.noConfusion he
    | error e' =>
      cases he
      show _ ∈ [LogEv.warningLog ("Failed to add issue to project: " ++ e)]
      exact List.mem_singleton.mpr rfl
  · show (githubUpdateProjectItemStatus ⟨rci, rgi, gadd, gitems, gupd, rpull, rass, rrev, rlab⟩).1
      = Except.ok ()
    cases gitems with
    | error e => rfl
    | ok l =>
      cases l with
      | nil => rfl
      | cons x xs => cases gupd <;> rfl
  · intro e he
    cases gitems with
    | ok v => exact Except.noConfusion he
    | error e' =>
      cases he
      show _ ∈ [LogEv.warningLog ("Failed to update project item status: " ++ e)]
      exact List.mem_singleton.mpr rfl
  · intro e he
    cases rpull with
    | ok v => exact Except.noConfusion he
    | error e' => cases he; rfl

/-- Witness for C8: each failure-path hypothesis discharged at a
concrete oracle in which the corresponding underlying call fails. -/
theorem githubClient_error_taxonomy_witness :
    (githubCreateIssue ⟨Except.error "403", Except.ok ⟨1, "t", "b", "u"⟩, Except.ok (),
        Except.ok ["i"], Except.ok (), Except.ok (2, "u2"), Except.ok (), Except.ok (),
        Except.ok ()⟩).1 = Except.error ("Failed to create GitHub issue: " ++ "403") ∧
    (githubAddIssueToProject ⟨Except.ok ⟨1, "t", "b", "u"⟩, Except.error "404",
        Except.ok (), Except.ok ["i"], Except.ok (), Except.ok (2, "u2"), Except.ok (),
        Except.ok (), Except.ok ()⟩).1 = Except.ok () ∧
    LogEv.warningLog ("Failed to add issue to project: " ++ "404")
      ∈ (githubAddIssueToProject ⟨Except.ok ⟨1, "t", "b", "u"⟩, Except.error "404",
        Except.ok (), Except.ok ["i"], Except.ok (), Except.ok (2, "u2"), Except.ok (),
        Except.ok (), Except.ok ()⟩).2 ∧
    LogEv.warningLog ("Failed to update project item status: " ++ "500")
      ∈ (githubUpdateProjectItemStatus ⟨Except.ok ⟨1, "t", "b", "u"⟩, Except.ok ⟨1, "t", "b", "u"⟩,
        Except.ok (), Except.error "500", Except.ok (), Except.ok (2, "u2"), Except.ok (),
        Except.ok (), Except.ok ()⟩).2 ∧
    (githubCreatePullRequest ⟨Except.ok ⟨1, "t", "b", "u"⟩, Except.ok ⟨1, "t", "b", "u"⟩,
        Except.ok (), Except.ok ["i"], Except.ok (), Except.error "422", Except.ok (),
        Except.ok (), Except.ok ()⟩ ⟨none, none, none⟩).1
      = Except.error ("Failed to create pull request: " ++ "422") :=
  ⟨(githubClient_error_taxonomy _ ⟨none, none, none⟩).1 "403" rfl,
   (githubClient_error_taxonomy ⟨Except.ok ⟨1, "t", "b", "u"⟩, Except.error "404",
      Except.ok (), Except.ok ["i"], Except.ok (), Except.ok (2, "u2"), Except.ok (),
      Except.ok (), Except.ok ()⟩ ⟨none, none, none⟩).2.1,
   (githubClient_error_taxonomy ⟨Except.ok ⟨1, "t", "b", "u"⟩, Except.error "404",
      Except.ok (), Except.ok ["i"], Except.ok (), Except.ok (2, "u2"), Except.ok (),
      Except.ok (), Except.ok ()⟩ ⟨none, none, none⟩).2.2.1 "404" rfl,
   (githubClient_error_taxonomy ⟨Except.ok ⟨1, "t", "b", "u"⟩, Except.ok ⟨1, "t", "b", "u"⟩,
      Except.ok (), Except.error "500", Except.ok (), Except.ok (2, "u2"), Except.ok (),
      Except.ok (), Except.ok ()⟩ ⟨none, none, none⟩).2.2.2.2.1 "500" rfl,
   (githubClient_error_taxonomy ⟨Except.ok ⟨1, "t", "b", "u"⟩, Except.ok ⟨1, "t", "b", "u"⟩,
      Except.ok (), Except.ok ["i"], Except.ok (), Except.error "422", Except.ok (),
      Except.ok (), Except.ok ()⟩ ⟨none, none, none⟩).2.2.2.2.2 "422" rfl⟩

/-- **C9**: the signal handler as a state machine over `isShuttingDown`:
the first interrupt starts cleanup — every registered function runs once
and the flag is set before any await — while an interrupt that arrives
when the flag is already set (cleanup already running) forces an
immediate exit with code 1 without running or awaiting the cleanup
functions again and without touching the state. -/
theorem cleanup_signal_machine (fns : List Nat) :
    signalStep ⟨fns, false⟩
      = (SignalAction.cleanupAndExit fns 0, ⟨fns, true⟩) ∧
    (∀ s : CleanupManagerState, s.isShuttingDown = true →
      signalStep s = (SignalAction.forceExit 1, s)) := by
  constructor
  · rfl
  · intro s hs
    unfold signalStep
    rw [if_pos hs]

/-- Witness for C9: two signals delivered in sequence from a fresh state
with one registered cleanup function. -/
theorem cleanup_signal_machine_witness :
    signalStep ⟨[5], false⟩
      = (SignalAction.cleanupAndExit [5] 0, ⟨[5], true⟩) ∧
    signalStep ⟨[5], true⟩ = (SignalAction.forceExit 1, ⟨[5], true⟩) :=
  ⟨(cleanup_signal_machine [5]).1, (cleanup_signal_machine [5]).2 ⟨[5], true⟩ rfl⟩

end ConstechWorker
